import Mathlib

/-!
# Verification of the VoteNet peer-to-peer voting node (`voting-node.js`)

A shallow embedding of the voting-node protocol engine. JS `Map`s become
insertion-ordered association lists, JS `Set`s become `Finset String`,
`setTimeout`/`clearTimeout` become a list of pending timers carried in the
node state, and every source of randomness or wall-clock time becomes an
explicit parameter. Each definition is translated from the function of the
same name in `voting-node.js`.
-/

namespace VoteNet

/-! ## JS `Map` model

A JS `Map` preserves insertion order; `set` on an existing key updates the
value in place, otherwise it appends. We model it as an association list. -/

abbrev JsMap (α : Type) := List (String × α)

def jsGet {α : Type} (m : JsMap α) (k : String) : Option α :=
  (m.find? (fun p => p.1 == k)).map (·.2)

def jsHas {α : Type} (m : JsMap α) (k : String) : Bool :=
  m.any (fun p => p.1 == k)

def jsSet {α : Type} (m : JsMap α) (k : String) (v : α) : JsMap α :=
  if jsHas m k then m.map (fun p => if p.1 == k then (k, v) else p)
  else m ++ [(k, v)]

/-! ### JS map lemmas -/

theorem jsSet_fst {α : Type} (k : String) (v : α) (p : String × α) :
    ((fun p : String × α => if p.1 == k then (k, v) else p) p).1 = p.1 := by
  by_cases hp : (p.1 == k) = true
  · have : p.1 = k := by simpa using hp
    simp [hp, this]
  · simp [hp]

theorem find?_jsSet_map {α : Type} (m : JsMap α) (k d : String) (v : α) :
    (m.map (fun p => if p.1 == k then (k, v) else p)).find? (fun p => p.1 == d)
      = (m.find? (fun p => p.1 == d)).map
          (fun p => if p.1 == k then (k, v) else p) := by
  rw [List.find?_map]
  have hpred : ((fun p : String × α => p.1 == d) ∘
      fun p : String × α => if p.1 == k then (k, v) else p)
      = fun p : String × α => p.1 == d := by
    funext p
    simp only [Function.comp_apply]
    rw [jsSet_fst]
  rw [hpred]

theorem jsGet_jsSet_same {α : Type} (m : JsMap α) (k : String) (v : α) :
    jsGet (jsSet m k v) k = some v := by
  unfold jsSet jsHas
  by_cases h : m.any (fun p => p.1 == k) = true
  · rw [if_pos h]
    unfold jsGet
    rw [find?_jsSet_map]
    rcases hfind : m.find? (fun p => p.1 == k) with _ | p
    · rw [List.find?_eq_none] at hfind
      rw [List.any_eq_true] at h
      obtain ⟨x, hx, hpx⟩ := h
      exact absurd hpx (hfind x hx)
    · rw [hfind]
      have hp : p.1 = k := by simpa using List.find?_some hfind
      simp [hp]
  · rw [if_neg h]
    have hfind : m.find? (fun p => p.1 == k) = none := by
      rw [List.find?_eq_none]
      intro x hx hpx
      exact h (List.any_eq_true.mpr ⟨x, hx, hpx⟩)
    unfold jsGet
    rw [List.find?_append, hfind]
    simp

theorem jsGet_jsSet_other {α : Type} (m : JsMap α) (k d : String) (v : α)
    (hne : d ≠ k) : jsGet (jsSet m k v) d = jsGet m d := by
  unfold jsSet jsHas
  by_cases h : m.any (fun p => p.1 == k) = true
  · rw [if_pos h]
    unfold jsGet
    rw [find?_jsSet_map]
    rcases hfind : m.find? (fun p => p.1 == d) with _ | p
    · rw [hfind]
      rfl
    · rw [hfind]
      have hp1 : p.1 = d := by simpa using List.find?_some hfind
      have hpk : ¬(p.1 = k) := hp1 ▸ hne
      simp [hpk]
  · rw [if_neg h]
    unfold jsGet
    rw [List.find?_append]
    have hsing : ([(k, v)].find? (fun p => p.1 == d)) = none := by
      rw [List.find?_eq_none]
      intro x hx
      rw [List.mem_singleton] at hx
      subst hx
      simp only [beq_iff_eq]
      exact fun h' => hne h'.symm
    rw [hsing]
    cases m.find? (fun p => p.1 == d) <;> rfl

/-! ### JS string primitives

`String.toLowerCase()` is modelled as mapping `Char.toLower` over the
characters (ASCII lowering), and `localeCompare` as the code-point
lexicographic order. Both are written structurally so that they evaluate
inside the kernel. -/

def jsToLower (s : String) : String :=
  String.mk (s.data.map Char.toLower)

def charListLe : List Char → List Char → Bool
  | [], _ => true
  | _ :: _, [] => false
  | a :: as, b :: bs =>
    if a < b then true else if b < a then false else charListLe as bs

/-- `a.localeCompare(b) <= 0`, modelled as code-point lexicographic order. -/
def strLe (a b : String) : Bool :=
  charListLe a.data b.data

theorem charListLe_cons_lt {x y : Char} (xs ys : List Char) (h : x < y) :
    charListLe (x :: xs) (y :: ys) = true := by
  simp [charListLe, h]

theorem charListLe_cons_gt {x y : Char} (xs ys : List Char) (h : y < x) :
    charListLe (x :: xs) (y :: ys) = false := by
  simp [charListLe, lt_asymm h, h]

theorem charListLe_cons_self (x : Char) (xs ys : List Char) :
    charListLe (x :: xs) (x :: ys) = charListLe xs ys := by
  simp [charListLe, lt_irrefl]

theorem charListLe_total (a b : List Char) :
    charListLe a b = true ∨ charListLe b a = true := by
  induction a generalizing b with
  | nil => left; rfl
  | cons x xs ih =>
    cases b with
    | nil => right; rfl
    | cons y ys =>
      rcases lt_trichotomy x y with h | h | h
      · left; exact charListLe_cons_lt xs ys h
      · subst h
        rw [charListLe_cons_self, charListLe_cons_self]
        exact ih ys
      · right; exact charListLe_cons_lt ys xs h

theorem charListLe_trans (a b c : List Char) (hab : charListLe a b = true)
    (hbc : charListLe b c = true) : charListLe a c = true := by
  induction a generalizing b c with
  | nil => rfl
  | cons x xs ih =>
    cases b with
    | nil => simp [charListLe] at hab
    | cons y ys =>
      cases c with
      | nil => simp [charListLe] at hbc
      | cons z zs =>
        rcases lt_trichotomy x y with hxy | hxy | hxy
        · rcases lt_trichotomy y z with hyz | hyz | hyz
          · exact charListLe_cons_lt xs zs (hxy.trans hyz)
          · subst hyz
            exact charListLe_cons_lt xs zs hxy
          · rw [charListLe_cons_gt ys zs hyz] at hbc
            cases hbc
        · subst hxy
          rcases lt_trichotomy x z with hxz | hxz | hxz
          · exact charListLe_cons_lt xs zs hxz
          · subst hxz
            rw [charListLe_cons_self] at hab hbc ⊢
            exact ih ys zs hab hbc
          · rw [charListLe_cons_gt ys zs hxz] at hbc
            cases hbc
        · rw [charListLe_cons_gt xs ys hxy] at hab
          cases hab

theorem charListLe_antisymm (a b : List Char) (hab : charListLe a b = true)
    (hba : charListLe b a = true) : a = b := by
  induction a generalizing b with
  | nil =>
    cases b with
    | nil => rfl
    | cons y ys => simp [charListLe] at hba
  | cons x xs ih =>
    cases b with
    | nil => simp [charListLe] at hab
    | cons y ys =>
      rcases lt_trichotomy x y with hxy | hxy | hxy
      · rw [charListLe_cons_gt ys xs hxy] at hba
        cases hba
      · subst hxy
        rw [charListLe_cons_self] at hab hba
        rw [ih ys hab hba]
      · rw [charListLe_cons_gt xs ys hxy] at hab
        cases hab

theorem strLe_total (a b : String) : strLe a b = true ∨ strLe b a = true :=
  charListLe_total a.data b.data

theorem strLe_trans (a b c : String) (hab : strLe a b = true)
    (hbc : strLe b c = true) : strLe a c = true :=
  charListLe_trans a.data b.data c.data hab hbc

theorem strLe_antisymm (a b : String) (hab : strLe a b = true)
    (hba : strLe b a = true) : a = b := by
  cases a with
  | mk da =>
    cases b with
    | mk db =>
      exact congrArg String.mk (charListLe_antisymm da db hab hba)

/-! ## Tally (`calculateResults`, lines 1490–1510)

`calculateResults` lowercases every decrypted choice, counts occurrences in
a JS `Map` (insertion-ordered), converts to an array and sorts by count
descending with the choice string as ascending tie-break:

```js
const tally = new Map();
for (const vote of roundVotes.values()) {
    const choice = vote.choice.toLowerCase();
    tally.set(choice, (tally.get(choice) || 0) + 1);
}
return Array.from(tally.entries()).sort(...).map(([choice, count]) => ({choice, count}));
```
-/

/-- One decrypted vote record as stored by `decryptAndProcessVotes`:
`{choice, anonymousVoteId, timestamp, roundId}`. -/
structure DecVote where
  choice : String
  anonymousVoteId : String
  timestamp : Nat
  roundId : String
deriving DecidableEq

/-- One iteration of the tally loop: `tally.set(choice, (tally.get(choice) || 0) + 1)`
for an already-lowercased `choice`. -/
def tallyStep (acc : List (String × Nat)) (c : String) : List (String × Nat) :=
  if acc.any (fun p => p.1 == c) then
    acc.map (fun p => if p.1 == c then (p.1, p.2 + 1) else p)
  else acc ++ [(c, 1)]

/-- The tally `Map` built by the loop, as its insertion-ordered entry list. -/
def buildTally (choices : List String) : List (String × Nat) :=
  choices.foldl (fun acc c => tallyStep acc (jsToLower c)) []

/-- The comparator passed to `.sort`: count descending, then choice ascending
(`localeCompare` tie-break, modelled as the lexicographic string order). -/
def resultLE (a b : String × Nat) : Prop :=
  b.2 < a.2 ∨ (a.2 = b.2 ∧ strLe a.1 b.1 = true)

instance : DecidableRel resultLE := fun _ _ =>
  inferInstanceAs (Decidable (_ ∨ _))

instance : IsTotal (String × Nat) resultLE where
  total a b := by
    rcases Nat.lt_trichotomy a.2 b.2 with h | h | h
    · exact Or.inr (Or.inl h)
    · rcases strLe_total a.1 b.1 with h' | h'
      · exact Or.inl (Or.inr ⟨h, h'⟩)
      · exact Or.inr (Or.inr ⟨h.symm, h'⟩)
    · exact Or.inl (Or.inl h)

instance : IsTrans (String × Nat) resultLE where
  trans a b c hab hbc := by
    rcases hab with h1 | ⟨h1, h1'⟩ <;> rcases hbc with h2 | ⟨h2, h2'⟩
    · exact Or.inl (h2.trans h1)
    · exact Or.inl (h2 ▸ h1)
    · exact Or.inl (h1 ▸ h2)
    · exact Or.inr ⟨h1.trans h2, strLe_trans _ _ _ h1' h2'⟩

instance : IsAntisymm (String × Nat) resultLE where
  antisymm a b hab hba := by
    rcases hab with h1 | ⟨h1, h1'⟩
    · rcases hba with h2 | ⟨h2, h2'⟩
      · exact absurd (h1.trans h2) (lt_irrefl _)
      · exact absurd h1 (h2 ▸ lt_irrefl _)
    · rcases hba with h2 | ⟨h2, h2'⟩
      · exact absurd h2 (h1 ▸ lt_irrefl _)
      · exact Prod.ext (strLe_antisymm _ _ h1' h2') h1

/-- `calculateResults` over the decrypted-votes map of the round. -/
def calculateResults (roundVotes : JsMap DecVote) : List (String × Nat) :=
  (buildTally (roundVotes.map (fun p => p.2.choice))).insertionSort resultLE

/-- `compareResults` (lines 1666–1676): equal lengths and element-wise equal
`choice` and `count` fields. -/
def compareResults (results1 results2 : List (String × Nat)) : Bool :=
  results1.length == results2.length &&
    (results1.zip results2).all (fun p => p.1.1 == p.2.1 && p.1.2 == p.2.2)

/-! ### Tally lemmas -/

/-- Value stored in the tally map for key `c` (`tally.get(c) || 0`). -/
def tallyGet (acc : List (String × Nat)) (c : String) : Nat :=
  match acc.find? (fun p => p.1 == c) with
  | some p => p.2
  | none => 0

/-- The increment function applied by the map branch of `tallyStep` preserves keys. -/
theorem tallyIncr_fst (c : String) (p : String × Nat) :
    ((fun p : String × Nat => if p.1 == c then (p.1, p.2 + 1) else p) p).1 = p.1 := by
  by_cases hp : p.1 == c <;> simp [hp]

theorem find?_tallyIncr (acc : List (String × Nat)) (c d : String) :
    (acc.map (fun p => if p.1 == c then (p.1, p.2 + 1) else p)).find? (fun p => p.1 == d)
      = (acc.find? (fun p => p.1 == d)).map
          (fun p => if p.1 == c then (p.1, p.2 + 1) else p) := by
  rw [List.find?_map]
  have hpred : ((fun p : String × Nat => p.1 == d) ∘
      fun p : String × Nat => if p.1 == c then (p.1, p.2 + 1) else p)
      = fun p : String × Nat => p.1 == d := by
    funext p
    by_cases hpc : p.1 = c <;> simp [hpc]
  rw [hpred]

theorem tallyGet_step_same (acc : List (String × Nat)) (c : String) :
    tallyGet (tallyStep acc c) c = tallyGet acc c + 1 := by
  unfold tallyStep
  by_cases h : acc.any (fun p => p.1 == c) = true
  · rw [if_pos h]
    unfold tallyGet
    rw [find?_tallyIncr]
    rcases hfind : acc.find? (fun p => p.1 == c) with _ | p
    · rw [List.find?_eq_none] at hfind
      rw [List.any_eq_true] at h
      obtain ⟨x, hx, hpx⟩ := h
      exact absurd hpx (hfind x hx)
    · rw [hfind]
      have hp : p.1 = c := by simpa using List.find?_some hfind
      simp [hp]
  · rw [if_neg h]
    have hfind : acc.find? (fun p => p.1 == c) = none := by
      rw [List.find?_eq_none]
      intro x hx hpx
      exact h (List.any_eq_true.mpr ⟨x, hx, hpx⟩)
    unfold tallyGet
    rw [List.find?_append, hfind]
    simp

theorem tallyGet_step_other (acc : List (String × Nat)) (c d : String) (hne : d ≠ c) :
    tallyGet (tallyStep acc c) d = tallyGet acc d := by
  unfold tallyStep
  by_cases h : acc.any (fun p => p.1 == c) = true
  · rw [if_pos h]
    unfold tallyGet
    rw [find?_tallyIncr]
    rcases hfind : acc.find? (fun p => p.1 == d) with _ | p
    · rw [hfind]
      rfl
    · rw [hfind]
      have hp := List.find?_some hfind
      have hp1 : p.1 = d := by simpa using hp
      have hpc : ¬(p.1 = c) := hp1 ▸ hne
      simp [hpc]
  · rw [if_neg h]
    unfold tallyGet
    rw [List.find?_append]
    have hsing : ([(c, 1)].find? (fun p => p.1 == d)) = none := by
      rw [List.find?_eq_none]
      intro x hx
      rw [List.mem_singleton] at hx
      subst hx
      simp only [beq_iff_eq]
      exact fun h' => hne h'.symm
    rw [hsing]
    cases acc.find? (fun p => p.1 == d) <;> rfl

theorem tallyGet_foldl (l : List String) (acc : List (String × Nat)) (c : String) :
    tallyGet (l.foldl tallyStep acc) c = tallyGet acc c + l.count c := by
  induction l generalizing acc with
  | nil => simp
  | cons x xs ih =>
    rw [List.foldl_cons, ih, List.count_cons]
    by_cases hx : x = c
    · subst hx
      rw [tallyGet_step_same]
      simp [Nat.add_assoc, Nat.add_comm]
    · rw [tallyGet_step_other _ _ _ (fun h => hx h.symm)]
      simp [hx]

/-- `tallyStep` does not change the key list in the increment branch and appends
a fresh key otherwise, so key-distinctness is preserved. -/
theorem tallyStep_keys_nodup (acc : List (String × Nat)) (c : String)
    (h : (acc.map Prod.fst).Nodup) : ((tallyStep acc c).map Prod.fst).Nodup := by
  unfold tallyStep
  by_cases hc : acc.any (fun p => p.1 == c) = true
  · rw [if_pos hc]
    have : (acc.map (fun p => if p.1 == c then (p.1, p.2 + 1) else p)).map Prod.fst
        = acc.map Prod.fst := by
      rw [List.map_map]
      exact List.map_congr_left (fun p _ => tallyIncr_fst c p)
    rw [this]
    exact h
  · rw [if_neg hc]
    rw [List.map_append, List.nodup_append]
    refine ⟨h, List.nodup_singleton c, ?_⟩
    intro a ha hb
    simp only [List.map_cons, List.map_nil, List.mem_singleton] at hb
    subst hb
    rw [List.mem_map] at ha
    obtain ⟨p, hp, hpa⟩ := ha
    exact hc (List.any_eq_true.mpr ⟨p, hp, by simp [hpa]⟩)

theorem tallyStep_vals_pos (acc : List (String × Nat)) (c : String)
    (h : ∀ p ∈ acc, p.2 ≠ 0) : ∀ p ∈ tallyStep acc c, p.2 ≠ 0 := by
  unfold tallyStep
  by_cases hc : acc.any (fun p => p.1 == c) = true
  · rw [if_pos hc]
    intro p hp
    rw [List.mem_map] at hp
    obtain ⟨q, hq, hqp⟩ := hp
    by_cases hq1 : (q.1 == c) = true
    · rw [if_pos hq1] at hqp
      rw [← hqp]
      exact Nat.succ_ne_zero _
    · rw [if_neg hq1] at hqp
      rw [← hqp]
      exact h q hq
  · rw [if_neg hc]
    intro p hp
    rw [List.mem_append, List.mem_singleton] at hp
    rcases hp with hp | hp
    · exact h p hp
    · rw [hp]
      exact Nat.one_ne_zero

theorem foldl_tallyStep_keys_nodup (l : List String) (acc : List (String × Nat))
    (h : (acc.map Prod.fst).Nodup) : ((l.foldl tallyStep acc).map Prod.fst).Nodup := by
  induction l generalizing acc with
  | nil => exact h
  | cons x xs ih => exact ih _ (tallyStep_keys_nodup _ _ h)

theorem foldl_tallyStep_vals_pos (l : List String) (acc : List (String × Nat))
    (h : ∀ p ∈ acc, p.2 ≠ 0) : ∀ p ∈ l.foldl tallyStep acc, p.2 ≠ 0 := by
  induction l generalizing acc with
  | nil => exact h
  | cons x xs ih => exact ih _ (tallyStep_vals_pos _ _ h)

/-- In a tally list with distinct keys and positive counts, membership of an
entry is exactly described by `tallyGet`. -/
theorem mem_iff_tallyGet (acc : List (String × Nat))
    (hkeys : (acc.map Prod.fst).Nodup) (hvals : ∀ p ∈ acc, p.2 ≠ 0)
    (c : String) (n : Nat) :
    ((c, n) ∈ acc) ↔ (tallyGet acc c = n ∧ n ≠ 0) := by
  constructor
  · intro hmem
    have hn : n ≠ 0 := hvals _ hmem
    refine ⟨?_, hn⟩
    have hsome : (acc.find? (fun p => p.1 == c)).isSome := by
      rw [List.find?_isSome]
      exact ⟨(c, n), hmem, by simp⟩
    rcases hfind : acc.find? (fun p => p.1 == c) with _ | p
    · rw [hfind] at hsome
      simp at hsome
    · have hp1 : p.1 = c := by simpa using List.find?_some hfind
      have hpin : p ∈ acc := List.mem_of_find?_eq_some hfind
      have : p = (c, n) :=
        List.inj_on_of_nodup_map hkeys hpin hmem (by simpa using hp1)
      rw [tallyGet, hfind, this]
  · rintro ⟨hget, hn⟩
    rcases hfind : acc.find? (fun p => p.1 == c) with _ | p
    · rw [tallyGet, hfind] at hget
      exact absurd hget.symm hn
    · rw [tallyGet, hfind] at hget
      have hp1 : p.1 = c := by simpa using List.find?_some hfind
      have hpin : p ∈ acc := List.mem_of_find?_eq_some hfind
      have : p = (c, n) := Prod.ext hp1 hget
      exact this ▸ hpin

theorem buildTally_eq_foldl (choices : List String) :
    buildTally choices = (choices.map jsToLower).foldl tallyStep [] := by
  rw [buildTally, List.foldl_map]

theorem tallyGet_buildTally (choices : List String) (c : String) :
    tallyGet (buildTally choices) c = (choices.map jsToLower).count c := by
  rw [buildTally_eq_foldl, tallyGet_foldl]
  simp [tallyGet]

theorem buildTally_keys_nodup (choices : List String) :
    ((buildTally choices).map Prod.fst).Nodup := by
  rw [buildTally_eq_foldl]
  exact foldl_tallyStep_keys_nodup _ _ List.nodup_nil

theorem buildTally_vals_pos (choices : List String) :
    ∀ p ∈ buildTally choices, p.2 ≠ 0 := by
  rw [buildTally_eq_foldl]
  exact foldl_tallyStep_vals_pos _ _ (by intro p hp; cases hp)

theorem mem_buildTally_iff (choices : List String) (c : String) (n : Nat) :
    (c, n) ∈ buildTally choices
      ↔ ((choices.map jsToLower).count c = n ∧ n ≠ 0) := by
  rw [mem_iff_tallyGet _ (buildTally_keys_nodup _) (buildTally_vals_pos _),
    tallyGet_buildTally]

/-- Two vote lists with the same multiset of lowercased choices build
permutation-equivalent tally lists. -/
theorem buildTally_perm (l₁ l₂ : List String)
    (h : (l₁.map jsToLower).Perm (l₂.map jsToLower)) :
    (buildTally l₁).Perm (buildTally l₂) := by
  have h₁ := buildTally_keys_nodup l₁
  have h₂ := buildTally_keys_nodup l₂
  rw [List.perm_ext_iff_of_nodup (h₁.of_map _) (h₂.of_map _)]
  rintro ⟨c, n⟩
  rw [mem_buildTally_iff, mem_buildTally_iff, h.count_eq c]

/-- The sorted tally only depends on the multiset of lowercased choices. -/
theorem calculateResults_perm (v₁ v₂ : JsMap DecVote)
    (h : (v₁.map (fun p => p.2.choice)).Perm (v₂.map (fun p => p.2.choice))) :
    calculateResults v₁ = calculateResults v₂ := by
  unfold calculateResults
  have hperm : (buildTally (v₁.map (fun p => p.2.choice))).Perm
      (buildTally (v₂.map (fun p => p.2.choice))) :=
    buildTally_perm _ _ ((h.map jsToLower).trans (by rw [List.map_map]) |>.trans
      (by rw [List.map_map]))
  exact List.eq_of_perm_of_sorted
    (((List.perm_insertionSort resultLE _).trans hperm).trans
      (List.perm_insertionSort resultLE _).symm)
    (List.sorted_insertionSort resultLE _)
    (List.sorted_insertionSort resultLE _)

theorem compareResults_cons (x y : String × Nat) (xs ys : List (String × Nat)) :
    compareResults (x :: xs) (y :: ys)
      = ((x.1 == y.1 && x.2 == y.2) && compareResults xs ys) := by
  simp only [compareResults, List.length_cons, List.zip_cons_cons, List.all_cons]
  have hlen : (xs.length + 1 == ys.length + 1) = (xs.length == ys.length) := by
    by_cases h : xs.length = ys.length <;> simp [h, Nat.add_right_cancel_iff]
  rw [hlen, Bool.and_left_comm]

theorem compareResults_eq_true_iff (results1 results2 : List (String × Nat)) :
    compareResults results1 results2 = true ↔ results1 = results2 := by
  induction results1 generalizing results2 with
  | nil => cases results2 <;> simp [compareResults]
  | cons x xs ih =>
    cases results2 with
    | nil => simp [compareResults]
    | cons y ys =>
      rw [compareResults_cons]
      simp only [Bool.and_eq_true, beq_iff_eq, List.cons.injEq, Prod.ext_iff, ih ys]

/-- Entries of `calculateResults` are exactly the lowercased choices with
their occurrence counts. -/
theorem mem_calculateResults_iff (v : JsMap DecVote) (c : String) (n : Nat) :
    (c, n) ∈ calculateResults v
      ↔ ((v.map (fun p => jsToLower p.2.choice)).count c = n ∧ n ≠ 0) := by
  rw [calculateResults,
    (List.perm_insertionSort resultLE _).mem_iff, mem_buildTally_iff,
    List.map_map]
  rfl

/-- **C1.** The tally is a deterministic function of the multiset of decrypted
choices: `calculateResults` lowercases every choice, counts occurrences, and
returns the list sorted by count descending then choice ascending, so any two
decrypted maps holding the same multiset of choice values yield the same
ordered list; and `compareResults` declares two tallies equal iff their ordered
lists are element-wise equal on both the `choice` and `count` fields. -/
theorem C1_tally_deterministic :
    (∀ v₁ v₂ : JsMap DecVote,
        (v₁.map (fun p => p.2.choice)).Perm (v₂.map (fun p => p.2.choice)) →
        calculateResults v₁ = calculateResults v₂)
    ∧ (∀ v : JsMap DecVote, (calculateResults v).Sorted resultLE)
    ∧ (∀ (v : JsMap DecVote) (c : String) (n : Nat),
        (c, n) ∈ calculateResults v
          ↔ ((v.map (fun p => jsToLower p.2.choice)).count c = n ∧ n ≠ 0))
    ∧ (∀ results1 results2 : List (String × Nat),
        compareResults results1 results2 = true ↔ results1 = results2) :=
  ⟨calculateResults_perm,
   fun _ => List.sorted_insertionSort resultLE _,
   mem_calculateResults_iff,
   compareResults_eq_true_iff⟩

/-- Witness for C1 at concrete inputs: two decrypted maps holding the same
multiset of choices (in different arrival order) tally identically. -/
theorem C1_tally_deterministic_witness :
    calculateResults
        [("a1", ⟨"Yes", "a1", 5, "r1"⟩), ("a2", ⟨"no", "a2", 6, "r1"⟩)]
      = calculateResults
        [("b1", ⟨"no", "b1", 9, "r1"⟩), ("b2", ⟨"Yes", "b2", 1, "r1"⟩)]
    ∧ compareResults [("yes", 2), ("no", 1)] [("yes", 2), ("no", 1)] = true :=
  ⟨C1_tally_deterministic.1 _ _ (by decide),
   (C1_tally_deterministic.2.2.2 _ _).mpr rfl⟩

/-! ## Node state model

The per-node protocol engine state, restricted to the fields the voting
protocol reads and writes. `setTimeout` becomes a list of pending timers
(with fresh numeric ids, as in Node.js); `clearTimeout` removes by id.
Wall-clock reads (`Date.now()`) and randomness (`Math.random()`,
`crypto.randomBytes`) are explicit parameters. Broadcast frames accumulate
in `outbox`; GUI notifications (`notifyGUIClients`) accumulate their event
type in `guiOutbox`. Unicast `ws.send` replies (handshake ACKs, peer lists)
and the discovery/connection machinery (`knownPeers`, `processPeerExchange`
connection scheduling) live outside the modelled fields and are noted where
they occur. -/

inductive Phase
  | VOTING
  | CONSENSUS
  | FINISHED
deriving DecidableEq

/-- An `ENCRYPTED_VOTE` frame, which is also what `encryptedVotes` stores. -/
structure EncVoteMsg where
  roundId : String
  anonymousVoteId : String
  encryptedData : String
  iv : String
  timestamp : Int
  signature : String
deriving DecidableEq

/-- An entry of the per-round `voteKeys` map. Our own `castVote` entries carry
`submittedBy` (local only); entries merged from peers carry `keyProvider`. -/
structure KeyEntry where
  key : String
  keyProvider : Option String
  submittedBy : Option String
deriving DecidableEq

/-- `myVoteTracking` entry (local only). -/
structure VoteTracking where
  anonymousVoteId : String
  choice : String
  timestamp : Int
  verified : Bool
deriving DecidableEq

/-- The callback passed to a `setTimeout`. The batch-keys callback captures
the already-shuffled key list at scheduling time; `this.currentRound.id` is
read only when the timer fires. -/
inductive TimerAction
  | enterConsensusPhase
  | finishRound
  | checkIfReadyToPropose
  | broadcastBatchKeys (keys : List (String × String))
deriving DecidableEq

structure Timer where
  tid : Nat
  delay : ℚ
  action : TimerAction
deriving DecidableEq

/-- The `currentRound` object. The source also stores an (unused) `votes` map
inside the round object; all code reads `this.votes` instead, so it is
omitted here. -/
structure Round where
  id : String
  topic : String
  allowedChoices : Option (List String)
  startTime : Int
  duration : ℚ
  votingTimeSeconds : ℚ
  phase : Phase
  results : Option (List (String × Nat))
  consensusAchieved : Bool
  consensusNodes : Finset String
  consensusTimeout : Option Nat
  finishTimeout : Option Nat
deriving DecidableEq

/-- Mesh/voting frames, with the fields the handlers read. `ENCRYPTED_VOTE`
and `DUPLICATE_NODE_REJECTION` carry no `from` field in the source. -/
inductive Message
  | HANDSHAKE (from_ : String) (port : Int)
  | HANDSHAKE_ACK (from_ : String) (port : Int)
  | PEER_EXCHANGE_REQUEST (from_ : String)
  | PEER_EXCHANGE_RESPONSE (from_ : String)
  | DUPLICATE_NODE_REJECTION (existingNodeId : String)
  | HEARTBEAT (from_ : String)
  | ROUND_START (roundId topic : String) (allowedChoices : Option (List String))
      (votingTimeSeconds : Option ℚ) (startTime : Int) (from_ : String)
  | ENCRYPTED_VOTE (roundId anonymousVoteId encryptedData iv : String)
      (timestamp : Int) (signature : String)
  | BATCH_VOTE_KEYS (roundId : String) (keys : List (String × String)) (from_ : String)
  | VOTE_KEY (roundId anonymousVoteId key : String) (from_ : String)
  | RESULT_PROPOSAL (roundId : String) (results : List (String × Nat))
      (voteCount : Nat) (from_ : String)
deriving DecidableEq

/-- `message.from`, `undefined` for frames that do not carry it. -/
def Message.fromField : Message → Option String
  | .HANDSHAKE f _ => some f
  | .HANDSHAKE_ACK f _ => some f
  | .PEER_EXCHANGE_REQUEST f => some f
  | .PEER_EXCHANGE_RESPONSE f => some f
  | .DUPLICATE_NODE_REJECTION _ => none
  | .HEARTBEAT f => some f
  | .ROUND_START _ _ _ _ _ f => some f
  | .ENCRYPTED_VOTE _ _ _ _ _ _ => none
  | .BATCH_VOTE_KEYS _ _ f => some f
  | .VOTE_KEY _ _ _ f => some f
  | .RESULT_PROPOSAL _ _ _ f => some f

structure NodeState where
  nodeId : String
  peers : Finset String
  activePeers : Finset String
  nodeRegistry : JsMap Int
  peerAddresses : JsMap Int
  currentRound : Option Round
  votes : JsMap (JsMap DecVote)
  encryptedVotes : JsMap (JsMap EncVoteMsg)
  voteKeys : JsMap (JsMap KeyEntry)
  hasVotedInRound : JsMap Bool
  myVoteTracking : JsMap VoteTracking
  results : JsMap (List (String × Nat))
  resultProposed : Bool
  keysSharingComplete : Bool
  pendingTimers : List Timer
  nextTimerId : Nat
  outbox : List Message
  guiOutbox : List String
deriving DecidableEq

/-- `setTimeout(cb, delay)`: arm a timer with a fresh id; return the id. -/
def setTimeout (s : NodeState) (action : TimerAction) (delay : ℚ) : NodeState × Nat :=
  ({ s with
      pendingTimers := s.pendingTimers ++ [⟨s.nextTimerId, delay, action⟩],
      nextTimerId := s.nextTimerId + 1 },
   s.nextTimerId)

/-- `clearTimeout(id)`. -/
def clearTimeout (s : NodeState) (tid : Nat) : NodeState :=
  { s with pendingTimers := s.pendingTimers.filter (fun t => t.tid ≠ tid) }

/-- `broadcast(message)`: the frame goes to every active peer and, for voting
events, to GUI clients; we record the frame itself. Per-peer send failures
(which deactivate a peer) are outside the model. -/
def broadcast (s : NodeState) (m : Message) : NodeState :=
  { s with outbox := s.outbox ++ [m] }

/-- `notifyGUIClients(eventType, data)`: record the event type. -/
def notifyGUIClients (s : NodeState) (eventType : String) : NodeState :=
  { s with guiOutbox := s.guiOutbox ++ [eventType] }

def getActiveNodeCount (s : NodeState) : Nat :=
  s.activePeers.card + 1

/-- `signMessage`: a SHA-256 digest of `nodeId + "_" + message`, modelled as an
opaque tagged string; no claim depends on the digest value. -/
def signMessage (nodeId message : String) : String :=
  "sha256:" ++ nodeId ++ "_" ++ message

/-- Output of `encryptVote` as consumed by `castVote`: the hex ciphertext, hex
key, hex IV, and the fresh random `anonymousVoteId`. `castVote` takes this
record as a parameter because the key, IV and id are fresh randomness. -/
structure EncResult where
  encryptedData : String
  key : String
  iv : String
  anonymousVoteId : String
deriving DecidableEq

/-- `castVote(choice)` (lines 948–1020). Rejection paths return the state
unchanged (the source only logs). `now` stands for the `Date.now()` calls and
`enc` for the output of `this.encryptVote(choice, round.id)`. -/
def castVote (s : NodeState) (choice : String) (now : Int) (enc : EncResult) :
    NodeState :=
  match s.currentRound with
  | none => s
  | some round =>
    if round.phase ≠ Phase.VOTING then s
    else if jsGet s.hasVotedInRound round.id = some true then s
    else if (match round.allowedChoices with
             | some allowed =>
               !(allowed.map jsToLower).contains (jsToLower choice)
             | none => false) then s
    else
      let hasVoted' := jsSet s.hasVotedInRound round.id true
      let roundKeys := (jsGet s.voteKeys round.id).getD []
      let voteKeys' := jsSet s.voteKeys round.id
        (jsSet roundKeys enc.anonymousVoteId ⟨enc.key, none, some s.nodeId⟩)
      let tracking' := jsSet s.myVoteTracking round.id
        ⟨enc.anonymousVoteId, choice, now, false⟩
      let msg : Message := .ENCRYPTED_VOTE round.id enc.anonymousVoteId
        enc.encryptedData enc.iv now
        (signMessage s.nodeId (round.id ++ "_" ++ enc.encryptedData))
      let s1 := broadcast { s with
        hasVotedInRound := hasVoted',
        voteKeys := voteKeys',
        myVoteTracking := tracking' } msg
      let roundEnc := (jsGet s1.encryptedVotes round.id).getD []
      let roundEnc' := jsSet roundEnc enc.anonymousVoteId
        ⟨round.id, enc.anonymousVoteId, enc.encryptedData, enc.iv, now,
         signMessage s.nodeId (round.id ++ "_" ++ enc.encryptedData)⟩
      { s1 with encryptedVotes := jsSet s1.encryptedVotes round.id roundEnc' }

/-- `handleEncryptedVote` (lines 1022–1043). The signature check is a no-op in
the source (the `if` body is empty). -/
def handleEncryptedVote (s : NodeState) (roundId anonymousVoteId encryptedData iv :
    String) (timestamp : Int) (signature : String) : NodeState :=
  match s.currentRound with
  | none => s
  | some round =>
    if roundId ≠ round.id then s
    else if round.phase ≠ Phase.VOTING then s
    else
      let roundEnc := (jsGet s.encryptedVotes round.id).getD []
      let roundEnc' := jsSet roundEnc anonymousVoteId
        ⟨roundId, anonymousVoteId, encryptedData, iv, timestamp, signature⟩
      { s with encryptedVotes := jsSet s.encryptedVotes round.id roundEnc' }

/-! ## Fisher–Yates shuffle (`shuffleArray`, lines 1101–1106)

```js
for (let i = array.length - 1; i > 0; i--) {
    const j = Math.floor(Math.random() * (i + 1));
    [array[i], array[j]] = [array[j], array[i]];
}
```

`Math.random()` outcomes are supplied as a function `rand` from the loop
index to the chosen `j` (already multiplied out and floored); the code
guarantees `j ≤ i` and the model clamps with `% (i + 1)`. -/

def listSwap {α : Type} (l : List α) (i j : Nat) : List α :=
  match l[i]?, l[j]? with
  | some a, some b => (l.set i b).set j a
  | _, _ => l

def fyAux {α : Type} (rand : Nat → Nat) : Nat → List α → List α
  | 0, a => a
  | i + 1, a => fyAux rand i (listSwap a (i + 1) (rand (i + 1) % (i + 2)))

def shuffleArray {α : Type} (a : List α) (rand : Nat → Nat) : List α :=
  fyAux rand (a.length - 1) a

theorem cons_set_perm {α : Type} (xs : List α) (k : Nat) (x b : α)
    (h : xs[k]? = some b) : (b :: xs.set k x).Perm (x :: xs) := by
  induction xs generalizing k with
  | nil => simp at h
  | cons y ys ih =>
    cases k with
    | zero =>
      simp only [List.getElem?_cons_zero, Option.some.injEq] at h
      rw [← h, List.set_cons_zero]
      exact List.Perm.swap x y ys
    | succ k =>
      simp only [List.getElem?_cons_succ] at h
      rw [List.set_cons_succ]
      have h1 : (b :: y :: ys.set k x).Perm (y :: b :: ys.set k x) :=
        List.Perm.swap y b _
      have h2 : (y :: b :: ys.set k x).Perm (y :: x :: ys) :=
        List.Perm.cons y (ih k h)
      have h3 : (y :: x :: ys).Perm (x :: y :: ys) := List.Perm.swap x y ys
      exact (h1.trans h2).trans h3

theorem listSwap_perm {α : Type} (l : List α) (i j : Nat) :
    (listSwap l i j).Perm l := by
  induction l generalizing i j with
  | nil => unfold listSwap; simp
  | cons x xs ih =>
    unfold listSwap
    cases i with
    | zero =>
      cases j with
      | zero => simp
      | succ k =>
        rcases hk : xs[k]? with _ | b
        · simp only [List.getElem?_cons_zero, List.getElem?_cons_succ, hk]
          exact List.Perm.refl _
        · simp only [List.getElem?_cons_zero, List.getElem?_cons_succ, hk,
            List.set_cons_zero, List.set_cons_succ]
          exact cons_set_perm xs k x b hk
    | succ k =>
      cases j with
      | zero =>
        rcases hk : xs[k]? with _ | a
        · simp only [List.getElem?_cons_succ, List.getElem?_cons_zero, hk]
          exact List.Perm.refl _
        · simp only [List.getElem?_cons_succ, List.getElem?_cons_zero, hk,
            List.set_cons_succ, List.set_cons_zero]
          exact cons_set_perm xs k x a hk
      | succ m =>
        rcases hk : xs[k]? with _ | a
        · simp only [List.getElem?_cons_succ, hk]
          exact List.Perm.refl _
        · rcases hm : xs[m]? with _ | b
          · simp only [List.getElem?_cons_succ, hk, hm]
            exact List.Perm.refl _
          · simp only [List.getElem?_cons_succ, hk, hm, List.set_cons_succ]
            have hsub := ih k m
            unfold listSwap at hsub
            rw [hk, hm] at hsub
            exact List.Perm.cons x hsub

theorem fyAux_perm {α : Type} (rand : Nat → Nat) (i : Nat) (a : List α) :
    (fyAux rand i a).Perm a := by
  induction i generalizing a with
  | zero => exact List.Perm.refl a
  | succ i ih =>
    exact (ih _).trans (listSwap_perm _ _ _)

/-- The Fisher–Yates loop produces a permutation of its input for every
sequence of random draws. -/
theorem shuffleArray_perm {α : Type} (a : List α) (rand : Nat → Nat) :
    (shuffleArray a rand).Perm a :=
  fyAux_perm rand _ a

/-! ## Round engine operations -/

/-- JS argument values for `startVotingRound(…, votingTimeSeconds)`: a JS
number (modelled as a rational; `NaN`/`Infinity` excluded) or any
non-number value. -/
inductive JsValue
  | number (q : ℚ)
  | nonNumber
deriving DecidableEq

/-- The clamp at the top of `startVotingRound` (lines 1287–1292):
`if (typeof votingTimeSeconds !== 'number' || votingTimeSeconds < 30 ||
votingTimeSeconds > 600) votingTimeSeconds = 100`. -/
def validateVotingTime : JsValue → ℚ
  | .number q => if q < 30 ∨ q > 600 then 100 else q
  | .nonNumber => 100

/-- `Math.round`. -/
def jsRound (q : ℚ) : Int :=
  ⌊q + 1 / 2⌋

/-- `decryptAndProcessVotes` (lines 1180–1225). The AES decryption
`dec encryptedData keyHex ivHex := this.decryptVote(...)` is a parameter:
at this layer ciphertexts are opaque strings. -/
def decryptAndProcessVotes (dec : String → String → String → Option DecVote)
    (s : NodeState) : NodeState :=
  match s.currentRound with
  | none => s
  | some round =>
    match jsGet s.encryptedVotes round.id, jsGet s.voteKeys round.id with
    | some encVotes, some roundKeys =>
      let votes0 := if jsHas s.votes round.id then s.votes
        else jsSet s.votes round.id []
      let decrypted := (jsGet votes0 round.id).getD []
      let decrypted' := encVotes.foldl (fun dmap p =>
        if jsHas roundKeys p.1 && !(jsHas dmap p.1) then
          match jsGet roundKeys p.1 with
          | some keyData =>
            match dec p.2.encryptedData keyData.key p.2.iv with
            | some dv =>
              jsSet dmap p.1 ⟨dv.choice, dv.anonymousVoteId, dv.timestamp, dv.roundId⟩
            | none => dmap
          | none => dmap
        else dmap) decrypted
      { s with votes := jsSet votes0 round.id decrypted' }
    | _, _ => s

/-- `checkForConsensus` (lines 1536–1557). -/
def checkForConsensus (s : NodeState) : NodeState :=
  match s.currentRound with
  | none => s
  | some round =>
    if round.phase ≠ Phase.CONSENSUS then s
    else if round.consensusAchieved then s
    else if round.consensusNodes.card ≥ getActiveNodeCount s then
      let s1 := { s with currentRound := some { round with consensusAchieved := true } }
      let s2 := match round.finishTimeout with
        | some tid => clearTimeout s1 tid
        | none => s1
      (setTimeout s2 .finishRound 500).1
    else s

/-- `proposeResults` (lines 1463–1488). -/
def proposeResults (dec : String → String → String → Option DecVote)
    (s : NodeState) : NodeState :=
  match s.currentRound with
  | none => s
  | some round =>
    if round.phase ≠ Phase.CONSENSUS then s
    else if s.resultProposed then s
    else
      let s1 := { s with resultProposed := true }
      let s2 := decryptAndProcessVotes dec s1
      let res := calculateResults ((jsGet s2.votes round.id).getD [])
      let voteCount := ((jsGet s2.votes round.id).getD []).length
      let s3 := broadcast s2 (.RESULT_PROPOSAL round.id res voteCount s2.nodeId)
      -- `this.currentRound.consensusNodes.add(this.nodeId)`: the round object
      -- is unchanged by the synchronous decrypt/broadcast above
      let round' := { round with consensusNodes := insert s3.nodeId round.consensusNodes }
      checkForConsensus { s3 with currentRound := some round' }

/-- `checkIfReadyToPropose` (lines 1406–1461). -/
def checkIfReadyToPropose (dec : String → String → String → Option DecVote)
    (s : NodeState) : NodeState :=
  match s.currentRound with
  | none => s
  | some round =>
    if round.phase ≠ Phase.CONSENSUS then s
    else if s.resultProposed then s
    else
      match jsGet s.encryptedVotes round.id, jsGet s.voteKeys round.id with
      | some encVotes, some roundKeys =>
        let totalEncryptedVotes := encVotes.length
        let totalKeys := roundKeys.length
        let activeNodes := getActiveNodeCount s
        let providers0 : Finset String := roundKeys.foldl (fun st p =>
          match p.2.keyProvider with
          | some q => insert q st
          | none => st) ∅
        let uniqueKeyProviders :=
          if 0 < roundKeys.length then insert s.nodeId providers0 else providers0
        if totalKeys ≥ totalEncryptedVotes ∧ uniqueKeyProviders.card ≥ activeNodes then
          if !s.keysSharingComplete then
            (setTimeout { s with keysSharingComplete := true }
              .checkIfReadyToPropose 3000).1
          else proposeResults dec s
        else (setTimeout s .checkIfReadyToPropose 3000).1
      | _, _ => (setTimeout s .checkIfReadyToPropose 3000).1

/-- `handleResultProposal` (lines 1512–1534). Note: no phase guard in the
source, only the round-id check. -/
def handleResultProposal (s : NodeState) (roundId : String)
    (results : List (String × Nat)) (from_ : String) : NodeState :=
  match s.currentRound with
  | none => s
  | some round =>
    if roundId ≠ round.id then s
    else
      let myResults := calculateResults ((jsGet s.votes round.id).getD [])
      if compareResults myResults results then
        let newNodes := insert s.nodeId (insert from_ round.consensusNodes)
        let round' := { round with consensusNodes := newNodes }
        checkForConsensus { s with currentRound := some round' }
      else s

/-- `finishRound` (lines 1559–1622), including `verifyMyVote`
(lines 1624–1646). The display-order shuffle of vote entries only affects
console output. -/
def finishRound (s : NodeState) : NodeState :=
  match s.currentRound with
  | none => s
  | some round =>
    if round.phase = Phase.FINISHED then s
    else
      let s1 := match round.consensusTimeout with
        | some tid => clearTimeout s tid
        | none => s
      let s2 := match round.finishTimeout with
        | some tid => clearTimeout s1 tid
        | none => s1
      let roundVotes := (jsGet s2.votes round.id).getD []
      let res := calculateResults roundVotes
      let round' := { round with phase := Phase.FINISHED, results := some res }
      let s3 := { s2 with currentRound := some round' }
      let s4 := match jsGet s3.myVoteTracking round.id with
        | none => s3
        | some tr =>
          match jsGet roundVotes tr.anonymousVoteId with
          | some recorded =>
            if jsToLower recorded.choice = jsToLower tr.choice then
              let tracking' := jsSet s3.myVoteTracking round.id { tr with verified := true }
              { s3 with myVoteTracking := tracking' }
            else s3
          | none => s3
      let s5 := { s4 with results := jsSet s4.results round.id res }
      notifyGUIClients (notifyGUIClients s5 "RESULTS") "PHASE_CHANGE"

/-- `enterConsensusPhase` (lines 1046–1069) together with the synchronous
part of `shareAllKeys` (lines 1072–1099): flip the phase, reset the latches,
collect and shuffle our stored keys, and arm the delayed batch broadcast
(`batchDelay` is the `Math.random() * 1000 + 500` draw) and the 10 s
readiness probe. -/
def enterConsensusPhase (s : NodeState) (rand : Nat → Nat) (batchDelay : ℚ) :
    NodeState :=
  match s.currentRound with
  | none => s
  | some round =>
    if round.phase ≠ Phase.VOTING then s
    else
      let s1 := { s with
        currentRound := some { round with phase := Phase.CONSENSUS },
        resultProposed := false,
        keysSharingComplete := false }
      let roundKeys := (jsGet s1.voteKeys round.id).getD []
      let allKeys := roundKeys.map (fun p => (p.1, p.2.key))
      let shuffled := shuffleArray allKeys rand
      let s2 := (setTimeout s1 (.broadcastBatchKeys shuffled) batchDelay).1
      let s3 := (setTimeout s2 .checkIfReadyToPropose 10000).1
      notifyGUIClients s3 "PHASE_CHANGE"

/-- `handleBatchVoteKeys` (lines 1108–1145). -/
def handleBatchVoteKeys (dec : String → String → String → Option DecVote)
    (s : NodeState) (roundId : String) (keys : List (String × String))
    (from_ : String) : NodeState :=
  match s.currentRound with
  | none => s
  | some round =>
    if roundId ≠ round.id then s
    else if round.phase ≠ Phase.CONSENSUS then s
    else
      let roundKeys := (jsGet s.voteKeys round.id).getD []
      let folded := keys.foldl (fun (acc : JsMap KeyEntry × Nat) ki =>
        if jsHas acc.1 ki.1 then acc
        else (jsSet acc.1 ki.1 ⟨ki.2, some from_, none⟩, acc.2 + 1)) (roundKeys, 0)
      let s1 := { s with voteKeys := jsSet s.voteKeys round.id folded.1 }
      if 0 < folded.2 then
        let s2 := decryptAndProcessVotes dec s1
        if !s2.resultProposed then checkIfReadyToPropose dec s2 else s2
      else s1

/-- `handleVoteKey` (lines 1147–1178). The single-key path, accepted
defensively on ingress. -/
def handleVoteKey (dec : String → String → String → Option DecVote)
    (s : NodeState) (roundId anonymousVoteId key from_ : String) : NodeState :=
  match s.currentRound with
  | none => s
  | some round =>
    if roundId ≠ round.id then s
    else if round.phase ≠ Phase.CONSENSUS then s
    else
      let roundKeys := (jsGet s.voteKeys round.id).getD []
      let s0 := { s with voteKeys := jsSet s.voteKeys round.id roundKeys }
      if jsHas roundKeys anonymousVoteId then s0
      else
        let roundKeys' := jsSet roundKeys anonymousVoteId ⟨key, some from_, none⟩
        let s1 := { s0 with voteKeys := jsSet s0.voteKeys round.id roundKeys' }
        let s2 := decryptAndProcessVotes dec s1
        if !s2.resultProposed then checkIfReadyToPropose dec s2 else s2

/-- `startVotingRound` (lines 1281–1347). `now` is `Date.now()`. -/
def startVotingRound (s : NodeState) (topic : String)
    (allowedChoices : Option (List String)) (votingTimeArg : JsValue)
    (now : Int) : NodeState :=
  if (match s.currentRound with
      | some round => decide (round.phase ≠ Phase.FINISHED)
      | none => false) then s
  else
    let votingTimeSeconds := validateVotingTime votingTimeArg
    let roundId := "round_" ++ toString now ++ "_" ++ s.nodeId
    let duration := votingTimeSeconds * 1000
    let round0 : Round := ⟨roundId, topic, allowedChoices, now, duration,
      votingTimeSeconds, Phase.VOTING, none, false, ∅, none, none⟩
    let s1 := { s with
      currentRound := some round0,
      resultProposed := false,
      keysSharingComplete := false,
      hasVotedInRound := jsSet s.hasVotedInRound roundId false,
      votes := jsSet s.votes roundId [],
      encryptedVotes := jsSet s.encryptedVotes roundId [],
      voteKeys := jsSet s.voteKeys roundId [] }
    let s2 := broadcast s1
      (.ROUND_START roundId topic allowedChoices (some votingTimeSeconds) now s.nodeId)
    let consensusDelay : ℚ := ((jsRound (votingTimeSeconds * 0.8 * 1000) : Int) : ℚ)
    let armed1 := setTimeout s2 .enterConsensusPhase consensusDelay
    let armed2 := setTimeout armed1.1 .finishRound duration
    match armed2.1.currentRound with
    | some r =>
      let r' := { r with consensusTimeout := some armed1.2, finishTimeout := some armed2.2 }
      { armed2.1 with currentRound := some r' }
    | none => armed2.1

/-- `handleRoundStart` (lines 1349–1404). Accept iff there is no current
round or the incoming `startTime` is strictly greater; the replaced
round's pending timers are NOT cleared. -/
def handleRoundStart (s : NodeState) (roundId topic : String)
    (allowedChoices : Option (List String)) (msgVotingTimeSeconds : Option ℚ)
    (startTime : Int) (now : Int) : NodeState :=
  if (match s.currentRound with
      | none => true
      | some round => decide (round.startTime < startTime)) then
    let votingTimeSeconds := match msgVotingTimeSeconds with
      | some q => if q = 0 then 100 else q
      | none => 100
    let round0 : Round := ⟨roundId, topic, allowedChoices, startTime,
      votingTimeSeconds * 1000, votingTimeSeconds, Phase.VOTING, none, false,
      ∅, none, none⟩
    let s1 := { s with
      currentRound := some round0,
      votes := jsSet s.votes roundId [],
      encryptedVotes := jsSet s.encryptedVotes roundId [],
      voteKeys := jsSet s.voteKeys roundId [],
      resultProposed := false,
      keysSharingComplete := false,
      hasVotedInRound := jsSet s.hasVotedInRound roundId false }
    let elapsed : ℚ := ((now - startTime : Int) : ℚ)
    let consensusDelay : ℚ :=
      max 100 (((jsRound (votingTimeSeconds * 0.8 * 1000) : Int) : ℚ) - elapsed)
    let finishDelay : ℚ := max 100 (votingTimeSeconds * 1000 - elapsed)
    let armed1 := setTimeout s1 .enterConsensusPhase consensusDelay
    let armed2 := setTimeout armed1.1 .finishRound finishDelay
    match armed2.1.currentRound with
    | some r =>
      let r' := { r with consensusTimeout := some armed1.2, finishTimeout := some armed2.2 }
      { armed2.1 with currentRound := some r' }
    | none => armed2.1
  else s

/-- A pending `setTimeout` callback fires: the timer is consumed and its
captured callback runs against the *current* state. `rand`/`batchDelay`
supply the randomness a fired `enterConsensusPhase` consumes. -/
def fireTimer (dec : String → String → String → Option DecVote)
    (s : NodeState) (tid : Nat) (rand : Nat → Nat) (batchDelay : ℚ) : NodeState :=
  match s.pendingTimers.find? (fun t => t.tid == tid) with
  | none => s
  | some t =>
    let s0 := { s with pendingTimers := s.pendingTimers.filter (fun u => u.tid ≠ tid) }
    match t.action with
    | .enterConsensusPhase => enterConsensusPhase s0 rand batchDelay
    | .finishRound => finishRound s0
    | .checkIfReadyToPropose => checkIfReadyToPropose dec s0
    | .broadcastBatchKeys keys =>
      match s0.currentRound with
      | some round => broadcast s0 (.BATCH_VOTE_KEYS round.id keys s0.nodeId)
      | none => s0

/-- `originalHandleMessage` (lines 750–873): the message dispatch. Unicast
replies (`HANDSHAKE_ACK`, peer lists) go back on the incoming socket and the
peer-exchange machinery only schedules outbound connection attempts; neither
touches the modelled fields. -/
def originalHandleMessage (dec : String → String → String → Option DecVote)
    (s : NodeState) (m : Message) (now : Int) : NodeState :=
  match m with
  | .HANDSHAKE f port =>
    let s1 := { s with peers := insert f s.peers, activePeers := insert f s.activePeers }
    if port ≠ 0 then { s1 with peerAddresses := jsSet s1.peerAddresses f port } else s1
  | .HANDSHAKE_ACK f port =>
    let s1 := { s with peers := insert f s.peers, activePeers := insert f s.activePeers }
    if port ≠ 0 then { s1 with peerAddresses := jsSet s1.peerAddresses f port } else s1
  | .PEER_EXCHANGE_REQUEST _ => s
  | .PEER_EXCHANGE_RESPONSE _ => s
  | .DUPLICATE_NODE_REJECTION _ => s
  | .HEARTBEAT f => { s with activePeers := insert f s.activePeers }
  | .ENCRYPTED_VOTE roundId anonId encData iv ts sig =>
    notifyGUIClients (handleEncryptedVote s roundId anonId encData iv ts sig)
      "VOTE_RECEIVED"
  | .BATCH_VOTE_KEYS roundId keys f => handleBatchVoteKeys dec s roundId keys f
  | .VOTE_KEY roundId anonId key f => handleVoteKey dec s roundId anonId key f
  | .RESULT_PROPOSAL roundId results _ f => handleResultProposal s roundId results f
  | .ROUND_START roundId topic ac vts st _ =>
    notifyGUIClients (handleRoundStart s roundId topic ac vts st now) "ROUND_START"

/-- `handleMessage` (lines 202–254): runtime duplicate-identity guard, node
registry refresh, duplicate-rejection fatal path, then the original
dispatch. -/
def handleMessage (dec : String → String → String → Option DecVote)
    (s : NodeState) (m : Message) (now : Int) : NodeState :=
  if (match m with
      | .HANDSHAKE f _ => decide (f = s.nodeId)
      | .HANDSHAKE_ACK f _ => decide (f = s.nodeId)
      | _ => false) then s
  else
    let s0 := match m.fromField with
      | some f =>
        if f ≠ "" ∧ f ≠ s.nodeId then
          { s with nodeRegistry := jsSet s.nodeRegistry f now }
        else s
      | none => s
    match m with
    | .DUPLICATE_NODE_REJECTION _ => s0
    | _ => originalHandleMessage dec s0 m now

/-! ## Claim theorems -/

/-- **C10.** A `BATCH_VOTE_KEYS` or `VOTE_KEY` message is discarded with all
node state left completely unchanged unless a current round exists, the
message's `roundId` equals the current round's id, and the current round's
phase is exactly `CONSENSUS`; in particular key batches arriving while the
local node is still in `VOTING` are not merged into the keys map. -/
theorem C10_key_messages_guarded :
    (∀ (dec : String → String → String → Option DecVote) (s : NodeState)
        (roundId : String) (keys : List (String × String)) (from_ : String),
      (∀ round, s.currentRound = some round →
          roundId ≠ round.id ∨ round.phase ≠ Phase.CONSENSUS) →
        handleBatchVoteKeys dec s roundId keys from_ = s)
    ∧ (∀ (dec : String → String → String → Option DecVote) (s : NodeState)
        (roundId anonymousVoteId key from_ : String),
      (∀ round, s.currentRound = some round →
          roundId ≠ round.id ∨ round.phase ≠ Phase.CONSENSUS) →
        handleVoteKey dec s roundId anonymousVoteId key from_ = s) := by
  constructor
  · intro dec s roundId keys from_ h
    rcases hcur : s.currentRound with _ | round
    · simp [handleBatchVoteKeys, hcur]
    · by_cases hid : roundId ≠ round.id
      · simp [handleBatchVoteKeys, hcur, hid]
      · have hph : round.phase ≠ Phase.CONSENSUS := by
          rcases h round hcur with h' | h'
          · exact absurd h' hid
          · exact h'
        simp [handleBatchVoteKeys, hcur, hid, hph]
  · intro dec s roundId anonymousVoteId key from_ h
    rcases hcur : s.currentRound with _ | round
    · simp [handleVoteKey, hcur]
    · by_cases hid : roundId ≠ round.id
      · simp [handleVoteKey, hcur, hid]
      · have hph : round.phase ≠ Phase.CONSENSUS := by
          rcases h round hcur with h' | h'
          · exact absurd h' hid
          · exact h'
        simp [handleVoteKey, hcur, hid, hph]

/-! ### C4: castVote policy -/

theorem castVote_noop_of_noRound (s : NodeState) (choice : String) (now : Int)
    (enc : EncResult) (hcur : s.currentRound = none) :
    castVote s choice now enc = s := by
  simp [castVote, hcur]

theorem castVote_noop_of_phase (s : NodeState) (choice : String) (now : Int)
    (enc : EncResult) (round : Round) (hcur : s.currentRound = some round)
    (hph : round.phase ≠ Phase.VOTING) :
    castVote s choice now enc = s := by
  simp [castVote, hcur, hph]

theorem castVote_noop_of_voted (s : NodeState) (choice : String) (now : Int)
    (enc : EncResult) (round : Round) (hcur : s.currentRound = some round)
    (hvoted : jsGet s.hasVotedInRound round.id = some true) :
    castVote s choice now enc = s := by
  by_cases hph : round.phase = Phase.VOTING
  · simp [castVote, hcur, hph, hvoted]
  · simp [castVote, hcur, hph]

theorem castVote_noop_of_badChoice (s : NodeState) (choice : String) (now : Int)
    (enc : EncResult) (round : Round) (hcur : s.currentRound = some round)
    (allowed : List String) (hac : round.allowedChoices = some allowed)
    (hmem : (jsToLower choice) ∉ allowed.map jsToLower) :
    castVote s choice now enc = s := by
  by_cases hph : round.phase = Phase.VOTING
  · by_cases hvoted : jsGet s.hasVotedInRound round.id = some true
    · simp [castVote, hcur, hph, hvoted]
    · simp [castVote, hcur, hph, hvoted, hac, hmem]
  · simp [castVote, hcur, hph]

theorem castVote_accept (s : NodeState) (choice : String) (now : Int)
    (enc : EncResult) (round : Round) (hcur : s.currentRound = some round)
    (hph : round.phase = Phase.VOTING)
    (hvoted : jsGet s.hasVotedInRound round.id ≠ some true)
    (hallowed : ∀ allowed, round.allowedChoices = some allowed →
        (jsToLower choice) ∈ allowed.map jsToLower) :
    (castVote s choice now enc).currentRound = s.currentRound
    ∧ jsGet (castVote s choice now enc).hasVotedInRound round.id = some true
    ∧ (castVote s choice now enc).outbox = s.outbox ++
        [Message.ENCRYPTED_VOTE round.id enc.anonymousVoteId enc.encryptedData
          enc.iv now (signMessage s.nodeId (round.id ++ "_" ++ enc.encryptedData))] := by
  have hguard : (match round.allowedChoices with
      | some allowed => !(allowed.map jsToLower).contains (jsToLower choice)
      | none => false) = false := by
    rcases hac : round.allowedChoices with _ | allowed
    · rfl
    · simp only [Bool.not_eq_true']
      simp [hallowed allowed hac]
  have hph' : ¬(round.phase ≠ Phase.VOTING) := not_not_intro hph
  unfold castVote
  simp only [hcur]
  rw [if_neg hph', if_neg hvoted, hguard]
  simp [broadcast, jsGet_jsSet_same]

/-- **C4.** `castVote(choice)` is rejected, leaving the whole node state
unchanged and broadcasting nothing, iff there is no current round, or the
phase is not `VOTING`, or the node already voted this round, or
`allowedChoices` is a finite set not containing the choice
case-insensitively. A successful `castVote` sets `hasVoted` for the round,
broadcasts exactly one `ENCRYPTED_VOTE`, and makes every subsequent
`castVote` in the same round a rejecting no-op, so a node broadcasts at most
one `ENCRYPTED_VOTE` per round. -/
theorem C4_castVote_policy :
    (∀ (s : NodeState) (choice : String) (now : Int) (enc : EncResult),
      castVote s choice now enc = s ↔
        (s.currentRound = none
         ∨ ∃ round, s.currentRound = some round ∧
            (round.phase ≠ Phase.VOTING
             ∨ jsGet s.hasVotedInRound round.id = some true
             ∨ ∃ allowed, round.allowedChoices = some allowed ∧
                 (jsToLower choice) ∉ allowed.map jsToLower)))
    ∧ (∀ (s : NodeState) (choice : String) (now : Int) (enc : EncResult)
        (round : Round), s.currentRound = some round →
        round.phase = Phase.VOTING →
        jsGet s.hasVotedInRound round.id ≠ some true →
        (∀ allowed, round.allowedChoices = some allowed →
            (jsToLower choice) ∈ allowed.map jsToLower) →
        jsGet (castVote s choice now enc).hasVotedInRound round.id = some true
        ∧ (castVote s choice now enc).outbox = s.outbox ++
            [Message.ENCRYPTED_VOTE round.id enc.anonymousVoteId
              enc.encryptedData enc.iv now
              (signMessage s.nodeId (round.id ++ "_" ++ enc.encryptedData))]
        ∧ ∀ (choice' : String) (now' : Int) (enc' : EncResult),
            castVote (castVote s choice now enc) choice' now' enc'
              = castVote s choice now enc) := by
  have haccept_ne : ∀ (s : NodeState) (choice : String) (now : Int)
      (enc : EncResult) (round : Round), s.currentRound = some round →
      round.phase = Phase.VOTING →
      jsGet s.hasVotedInRound round.id ≠ some true →
      (∀ allowed, round.allowedChoices = some allowed →
          (jsToLower choice) ∈ allowed.map jsToLower) →
      castVote s choice now enc ≠ s := by
    intro s choice now enc round hcur hph hvoted hallowed heq
    have hout := (castVote_accept s choice now enc round hcur hph hvoted hallowed).2.2
    rw [heq] at hout
    have := congrArg List.length hout
    simp at this
  constructor
  · intro s choice now enc
    constructor
    · intro heq
      by_contra hnc
      push_neg at hnc
      obtain ⟨hnone, hround⟩ := hnc
      rcases hcur : s.currentRound with _ | round
      · exact hnone hcur
      · obtain ⟨hph, hvoted, hallowed⟩ := hround round hcur
        exact haccept_ne s choice now enc round hcur hph hvoted
          (fun allowed hac => hallowed allowed hac) heq
    · intro hcond
      rcases hcond with hnone | ⟨round, hcur, hrej⟩
      · exact castVote_noop_of_noRound s choice now enc hnone
      · rcases hrej with hph | hvoted | ⟨allowed, hac, hmem⟩
        · exact castVote_noop_of_phase s choice now enc round hcur hph
        · exact castVote_noop_of_voted s choice now enc round hcur hvoted
        · exact castVote_noop_of_badChoice s choice now enc round hcur allowed hac hmem
  · intro s choice now enc round hcur hph hvoted hallowed
    obtain ⟨hcur', hvoted', hout⟩ :=
      castVote_accept s choice now enc round hcur hph hvoted hallowed
    refine ⟨hvoted', hout, ?_⟩
    intro choice' now' enc'
    exact castVote_noop_of_voted _ choice' now' enc' round (hcur'.trans hcur) hvoted'

/-! ### Concrete sample states for witnesses and counterexamples -/

/-- A node with no active round. -/
def emptyState : NodeState :=
  ⟨"alice", ∅, ∅, [], [], none, [], [], [], [], [], [], false, false, [], 0, [], []⟩

/-- A `VOTING`-phase round started locally at t = 1000 ms with a 100 s
duration. -/
def sampleRound : Round :=
  ⟨"round_1000_alice", "Deploy?", some ["yes", "no"], 1000, 100000, 100,
   Phase.VOTING, none, false, ∅, some 0, some 1⟩

/-- The node `alice` inside `sampleRound`, timers armed, nobody voted yet. -/
def sampleState : NodeState :=
  ⟨"alice", ∅, ∅, [], [], some sampleRound,
   [("round_1000_alice", [])], [("round_1000_alice", [])],
   [("round_1000_alice", [])], [("round_1000_alice", false)],
   [], [], false, false,
   [⟨0, 80000, .enterConsensusPhase⟩, ⟨1, 100000, .finishRound⟩], 2, [], []⟩

/-- A concrete `encryptVote` output for witnesses. -/
def sampleEnc : EncResult := ⟨"deadbeef", "aa", "bb", "anon1"⟩

def sampleEnc2 : EncResult := ⟨"cafebabe", "cc", "dd", "anon2"⟩

/-- Witness for C10: a batch and a single key for the current round arriving
while the node is still in `VOTING` leave the state untouched. -/
theorem C10_key_messages_guarded_witness :
    handleBatchVoteKeys (fun _ _ _ => none) sampleState "round_1000_alice"
        [("anon1", "k1")] "bob" = sampleState
    ∧ handleVoteKey (fun _ _ _ => none) sampleState "round_1000_alice"
        "anon1" "k1" "bob" = sampleState := by
  have hcond : ∀ round, sampleState.currentRound = some round →
      "round_1000_alice" ≠ round.id ∨ round.phase ≠ Phase.CONSENSUS := by
    intro round h
    have hr : sampleRound = round := Option.some.inj h
    right
    rw [← hr]
    decide
  exact ⟨C10_key_messages_guarded.1 _ _ _ _ _ hcond,
    C10_key_messages_guarded.2 _ _ _ _ _ _ hcond⟩

/-- Witness for C4: with `allowedChoices = [yes, no]`, `castVote("maybe")` is
a no-op; `castVote("yes")` sets `hasVoted` and a second vote in the same
round changes nothing. -/
theorem C4_castVote_policy_witness :
    castVote sampleState "maybe" 2000 sampleEnc = sampleState
    ∧ jsGet (castVote sampleState "yes" 2000 sampleEnc).hasVotedInRound
        "round_1000_alice" = some true
    ∧ castVote (castVote sampleState "yes" 2000 sampleEnc) "no" 2500 sampleEnc2
        = castVote sampleState "yes" 2000 sampleEnc := by
  have hallowed : ∀ allowed, sampleRound.allowedChoices = some allowed →
      jsToLower "yes" ∈ allowed.map jsToLower := by
    intro allowed h
    have : ["yes", "no"] = allowed := Option.some.inj h
    rw [← this]
    decide
  have haccept := C4_castVote_policy.2 sampleState "yes" 2000 sampleEnc
    sampleRound rfl rfl (by decide) hallowed
  refine ⟨?_, haccept.1, haccept.2.2 "no" 2500 sampleEnc2⟩
  exact (C4_castVote_policy.1 sampleState "maybe" 2000 sampleEnc).mpr
    (Or.inr ⟨sampleRound, rfl, Or.inr (Or.inr ⟨["yes", "no"], rfl, by decide⟩)⟩)

/-! ### C8: votingTimeSeconds validation -/

/-- Counterexample to C8 as stated: the claim says any non-integer value maps
to 100, but `45.5 = 91/2` is a JS number inside `[30, 600]`, so the code keeps
it (its denominator is 2, so it is not an integer, and it is not 100). -/
theorem C8_counterexample :
    validateVotingTime (.number (91 / 2)) = 91 / 2
    ∧ ((91 / 2 : ℚ)).den = 2
    ∧ (91 / 2 : ℚ) ≠ 100 := by
  refine ⟨?_, by norm_num, by norm_num⟩
  simp only [validateVotingTime]
  rw [if_neg]
  norm_num

/-- **C8 (amended).** `startVotingRound` replaces `votingTimeSeconds` by the
default 100 whenever it is not a number, or is a number below 30 or above
600; 29 → 100, 30 → 30, 600 → 600, 601 → 100, any non-number → 100, while a
non-integer number inside `[30, 600]` is kept. The accepted value determines
the round duration (`votingTimeSeconds × 1000` ms) and the CONSENSUS timer
delay (`Math.round` of 80 % of it). -/
theorem C8_votingTime_clamped :
    (∀ q : ℚ, (q < 30 ∨ q > 600) → validateVotingTime (.number q) = 100)
    ∧ (∀ q : ℚ, 30 ≤ q → q ≤ 600 → validateVotingTime (.number q) = q)
    ∧ validateVotingTime .nonNumber = 100
    ∧ validateVotingTime (.number 29) = 100
    ∧ validateVotingTime (.number 30) = 30
    ∧ validateVotingTime (.number 600) = 600
    ∧ validateVotingTime (.number 601) = 100
    ∧ (∀ (s : NodeState) (topic : String) (ac : Option (List String))
        (arg : JsValue) (now : Int), s.currentRound = none →
        (startVotingRound s topic ac arg now).currentRound =
          some ⟨"round_" ++ toString now ++ "_" ++ s.nodeId, topic, ac, now,
            validateVotingTime arg * 1000, validateVotingTime arg, Phase.VOTING,
            none, false, ∅, some s.nextTimerId, some (s.nextTimerId + 1)⟩
        ∧ (startVotingRound s topic ac arg now).pendingTimers =
          s.pendingTimers ++
            [⟨s.nextTimerId,
                ((jsRound (validateVotingTime arg * 0.8 * 1000) : Int) : ℚ),
                .enterConsensusPhase⟩,
             ⟨s.nextTimerId + 1, validateVotingTime arg * 1000, .finishRound⟩]) := by
  refine ⟨?_, ?_, rfl, by decide, by decide, by decide, by decide, ?_⟩
  · intro q h
    simp [validateVotingTime, h]
  · intro q h1 h2
    simp only [validateVotingTime]
    rw [if_neg]
    push_neg
    exact ⟨h1, h2⟩
  · intro s topic ac arg now hcur
    constructor
    · simp [startVotingRound, hcur, setTimeout, broadcast]
    · simp [startVotingRound, hcur, setTimeout, broadcast]

/-- Witness for C8 at concrete inputs: `45` is kept and the round it starts
runs for `45 × 1000` ms. -/
theorem C8_votingTime_clamped_witness :
    validateVotingTime (.number 45) = 45
    ∧ (startVotingRound emptyState "Deploy?" none (.number 45) 5000).currentRound =
        some ⟨"round_" ++ toString (5000 : Int) ++ "_" ++ emptyState.nodeId,
          "Deploy?", none, 5000, validateVotingTime (.number 45) * 1000,
          validateVotingTime (.number 45), Phase.VOTING, none, false, ∅,
          some emptyState.nextTimerId, some (emptyState.nextTimerId + 1)⟩ :=
  ⟨C8_votingTime_clamped.2.1 45 (by norm_num) (by norm_num),
   (C8_votingTime_clamped.2.2.2.2.2.2.2 emptyState "Deploy?" none (.number 45)
      5000 rfl).1⟩

/-! ### Mesh-plane frame lemmas

The round-engine operations never touch the mesh-plane fields (`nodeId`,
`peers`, `activePeers`, `nodeRegistry`, `peerAddresses`). -/

def MeshFrame (s' s : NodeState) : Prop :=
  s'.nodeId = s.nodeId ∧ s'.peers = s.peers ∧ s'.activePeers = s.activePeers
  ∧ s'.nodeRegistry = s.nodeRegistry ∧ s'.peerAddresses = s.peerAddresses

theorem meshFrame_trans {s1 s2 s3 : NodeState} (h1 : MeshFrame s1 s2)
    (h2 : MeshFrame s2 s3) : MeshFrame s1 s3 :=
  ⟨h1.1.trans h2.1, h1.2.1.trans h2.2.1, h1.2.2.1.trans h2.2.2.1,
   h1.2.2.2.1.trans h2.2.2.2.1, h1.2.2.2.2.trans h2.2.2.2.2⟩

theorem decryptAndProcessVotes_mesh (dec : String → String → String → Option DecVote)
    (s : NodeState) : MeshFrame (decryptAndProcessVotes dec s) s := by
  unfold decryptAndProcessVotes
  repeat' split
  all_goals exact ⟨rfl, rfl, rfl, rfl, rfl⟩

theorem checkForConsensus_mesh (s : NodeState) :
    MeshFrame (checkForConsensus s) s := by
  unfold checkForConsensus
  repeat' split
  all_goals exact ⟨rfl, rfl, rfl, rfl, rfl⟩

theorem proposeResults_mesh (dec : String → String → String → Option DecVote)
    (s : NodeState) : MeshFrame (proposeResults dec s) s := by
  unfold proposeResults
  repeat' split
  all_goals first
    | exact ⟨rfl, rfl, rfl, rfl, rfl⟩
    | exact meshFrame_trans (checkForConsensus_mesh _)
        ⟨(decryptAndProcessVotes_mesh dec _).1,
         (decryptAndProcessVotes_mesh dec _).2.1,
         (decryptAndProcessVotes_mesh dec _).2.2.1,
         (decryptAndProcessVotes_mesh dec _).2.2.2.1,
         (decryptAndProcessVotes_mesh dec _).2.2.2.2⟩
    | exact meshFrame_trans (decryptAndProcessVotes_mesh dec _)
        ⟨rfl, rfl, rfl, rfl, rfl⟩

theorem checkIfReadyToPropose_mesh (dec : String → String → String → Option DecVote)
    (s : NodeState) : MeshFrame (checkIfReadyToPropose dec s) s := by
  unfold checkIfReadyToPropose
  repeat' split
  all_goals try dsimp only
  all_goals repeat' split
  all_goals first
    | exact ⟨rfl, rfl, rfl, rfl, rfl⟩
    | exact proposeResults_mesh dec _

theorem handleBatchVoteKeys_mesh (dec : String → String → String → Option DecVote)
    (s : NodeState) (roundId : String) (keys : List (String × String))
    (from_ : String) : MeshFrame (handleBatchVoteKeys dec s roundId keys from_) s := by
  unfold handleBatchVoteKeys
  repeat' split
  all_goals try dsimp only
  all_goals repeat' split
  all_goals first
    | exact ⟨rfl, rfl, rfl, rfl, rfl⟩
    | exact meshFrame_trans (checkIfReadyToPropose_mesh dec _)
        (meshFrame_trans (decryptAndProcessVotes_mesh dec _)
          ⟨rfl, rfl, rfl, rfl, rfl⟩)
    | exact meshFrame_trans (decryptAndProcessVotes_mesh dec _)
        ⟨rfl, rfl, rfl, rfl, rfl⟩

theorem handleVoteKey_mesh (dec : String → String → String → Option DecVote)
    (s : NodeState) (roundId anonymousVoteId key from_ : String) :
    MeshFrame (handleVoteKey dec s roundId anonymousVoteId key from_) s := by
  unfold handleVoteKey
  repeat' split
  all_goals try dsimp only
  all_goals repeat' split
  all_goals first
    | exact ⟨rfl, rfl, rfl, rfl, rfl⟩
    | exact meshFrame_trans (checkIfReadyToPropose_mesh dec _)
        (meshFrame_trans (decryptAndProcessVotes_mesh dec _)
          ⟨rfl, rfl, rfl, rfl, rfl⟩)
    | exact meshFrame_trans (decryptAndProcessVotes_mesh dec _)
        ⟨rfl, rfl, rfl, rfl, rfl⟩

theorem handleResultProposal_mesh (s : NodeState) (roundId : String)
    (results : List (String × Nat)) (from_ : String) :
    MeshFrame (handleResultProposal s roundId results from_) s := by
  unfold handleResultProposal
  repeat' split
  all_goals try dsimp only
  all_goals repeat' split
  all_goals first
    | exact ⟨rfl, rfl, rfl, rfl, rfl⟩
    | exact meshFrame_trans (checkForConsensus_mesh _) ⟨rfl, rfl, rfl, rfl, rfl⟩

theorem handleEncryptedVote_mesh (s : NodeState) (roundId anonymousVoteId
    encryptedData iv : String) (timestamp : Int) (signature : String) :
    MeshFrame (handleEncryptedVote s roundId anonymousVoteId encryptedData iv
      timestamp signature) s := by
  unfold handleEncryptedVote
  repeat' split
  all_goals exact ⟨rfl, rfl, rfl, rfl, rfl⟩

theorem handleRoundStart_mesh (s : NodeState) (roundId topic : String)
    (allowedChoices : Option (List String)) (msgVotingTimeSeconds : Option ℚ)
    (startTime : Int) (now : Int) :
    MeshFrame (handleRoundStart s roundId topic allowedChoices
      msgVotingTimeSeconds startTime now) s := by
  unfold handleRoundStart
  repeat' split
  all_goals exact ⟨rfl, rfl, rfl, rfl, rfl⟩

/-! ### C9: activePeers refresh -/

/-- Counterexample to C9 as stated: a `RESULT_PROPOSAL` from `bob` (a node
other than ourselves) is handled, yet `bob` is not in `activePeers`
afterwards — only the separate `nodeRegistry` is refreshed. -/
theorem C9_counterexample :
    Message.fromField (.RESULT_PROPOSAL "r" [] 0 "bob") = some "bob"
    ∧ "bob" ≠ emptyState.nodeId
    ∧ "bob" ∉ (handleMessage (fun _ _ _ => none) emptyState
        (.RESULT_PROPOSAL "r" [] 0 "bob") 999).activePeers
    ∧ jsGet (handleMessage (fun _ _ _ => none) emptyState
        (.RESULT_PROPOSAL "r" [] 0 "bob") 999).nodeRegistry "bob" = some 999 :=
  ⟨rfl, by decide, by decide, by decide⟩

theorem notifyGUIClients_activePeers (s : NodeState) (e : String) :
    (notifyGUIClients s e).activePeers = s.activePeers := rfl

theorem notifyGUIClients_nodeRegistry (s : NodeState) (e : String) :
    (notifyGUIClients s e).nodeRegistry = s.nodeRegistry := rfl

/-- **C9 (amended).** Only `HANDSHAKE`, `HANDSHAKE_ACK` and `HEARTBEAT` add
their sender to `activePeers`; handling any other message type leaves
`activePeers` unchanged. Every handled message whose `from` field names a
node other than ourselves (and is non-empty) refreshes that sender's
`lastSeen` entry in the separate `nodeRegistry`. -/
theorem C9_activePeers_refresh :
    (∀ (dec : String → String → String → Option DecVote) (s : NodeState)
        (f : String) (port now : Int), f ≠ s.nodeId →
        f ∈ (handleMessage dec s (.HANDSHAKE f port) now).activePeers
        ∧ f ∈ (handleMessage dec s (.HANDSHAKE_ACK f port) now).activePeers)
    ∧ (∀ (dec : String → String → String → Option DecVote) (s : NodeState)
        (f : String) (now : Int),
        f ∈ (handleMessage dec s (.HEARTBEAT f) now).activePeers)
    ∧ (∀ (dec : String → String → String → Option DecVote) (s : NodeState)
        (m : Message) (now : Int),
        (∀ f port, m ≠ .HANDSHAKE f port) →
        (∀ f port, m ≠ .HANDSHAKE_ACK f port) →
        (∀ f, m ≠ .HEARTBEAT f) →
        (handleMessage dec s m now).activePeers = s.activePeers)
    ∧ (∀ (dec : String → String → String → Option DecVote) (s : NodeState)
        (m : Message) (now : Int) (f : String),
        m.fromField = some f → f ≠ "" → f ≠ s.nodeId →
        jsGet (handleMessage dec s m now).nodeRegistry f = some now) := by
  refine ⟨?_, ?_, ?_, ?_⟩
  · intro dec s f port now hne
    constructor
    · simp [handleMessage, hne, originalHandleMessage, Message.fromField]
      split <;> exact Finset.mem_insert_self f _
    · simp [handleMessage, hne, originalHandleMessage, Message.fromField]
      split <;> exact Finset.mem_insert_self f _
  · intro dec s f now
    by_cases hne : f = s.nodeId
    · simp [handleMessage, hne, originalHandleMessage, Message.fromField]
    · simp [handleMessage, hne, originalHandleMessage, Message.fromField]
  · intro dec s m now h1 h2 h3
    cases m with
    | HANDSHAKE f port => exact absurd rfl (h1 f port)
    | HANDSHAKE_ACK f port => exact absurd rfl (h2 f port)
    | HEARTBEAT f => exact absurd rfl (h3 f)
    | PEER_EXCHANGE_REQUEST f =>
      simp only [handleMessage, Message.fromField, originalHandleMessage]
      rw [if_neg (by simp)]
      split <;> rfl
    | PEER_EXCHANGE_RESPONSE f =>
      simp only [handleMessage, Message.fromField, originalHandleMessage]
      rw [if_neg (by simp)]
      split <;> rfl
    | DUPLICATE_NODE_REJECTION e =>
      simp only [handleMessage, Message.fromField]
      rw [if_neg (by simp)]
    | ROUND_START roundId topic ac vts st f =>
      simp only [handleMessage, Message.fromField, originalHandleMessage]
      rw [if_neg (by simp)]
      rw [notifyGUIClients_activePeers, (handleRoundStart_mesh _ _ _ _ _ _ _).2.2.1]
      split <;> rfl
    | ENCRYPTED_VOTE roundId anonId encData iv ts sig =>
      simp only [handleMessage, Message.fromField, originalHandleMessage]
      rw [if_neg (by simp)]
      rw [notifyGUIClients_activePeers, (handleEncryptedVote_mesh _ _ _ _ _ _ _).2.2.1]
    | BATCH_VOTE_KEYS roundId keys f =>
      simp only [handleMessage, Message.fromField, originalHandleMessage]
      rw [if_neg (by simp)]
      rw [(handleBatchVoteKeys_mesh _ _ _ _ _).2.2.1]
      split <;> rfl
    | VOTE_KEY roundId anonId key f =>
      simp only [handleMessage, Message.fromField, originalHandleMessage]
      rw [if_neg (by simp)]
      rw [(handleVoteKey_mesh _ _ _ _ _ _).2.2.1]
      split <;> rfl
    | RESULT_PROPOSAL roundId results voteCount f =>
      simp only [handleMessage, Message.fromField, originalHandleMessage]
      rw [if_neg (by simp)]
      rw [(handleResultProposal_mesh _ _ _ _).2.2.1]
      split <;> rfl
  · intro dec s m now f hf hne hne2
    cases m with
    | HANDSHAKE f0 port =>
      have hf0 : f0 = f := by simpa [Message.fromField] using hf
      subst hf0
      simp only [handleMessage, Message.fromField, originalHandleMessage]
      rw [if_neg (by simp [hne2])]
      split <;> (rw [if_pos ⟨hne, hne2⟩]; simp [jsGet_jsSet_same])
    | HANDSHAKE_ACK f0 port =>
      have hf0 : f0 = f := by simpa [Message.fromField] using hf
      subst hf0
      simp only [handleMessage, Message.fromField, originalHandleMessage]
      rw [if_neg (by simp [hne2])]
      split <;> (rw [if_pos ⟨hne, hne2⟩]; simp [jsGet_jsSet_same])
    | HEARTBEAT f0 =>
      have hf0 : f0 = f := by simpa [Message.fromField] using hf
      subst hf0
      simp only [handleMessage, Message.fromField, originalHandleMessage]
      rw [if_neg (by simp), if_pos ⟨hne, hne2⟩]
      simp [jsGet_jsSet_same]
    | PEER_EXCHANGE_REQUEST f0 =>
      have hf0 : f0 = f := by simpa [Message.fromField] using hf
      subst hf0
      simp only [handleMessage, Message.fromField, originalHandleMessage]
      rw [if_neg (by simp), if_pos ⟨hne, hne2⟩]
      simp [jsGet_jsSet_same]
    | PEER_EXCHANGE_RESPONSE f0 =>
      have hf0 : f0 = f := by simpa [Message.fromField] using hf
      subst hf0
      simp only [handleMessage, Message.fromField, originalHandleMessage]
      rw [if_neg (by simp), if_pos ⟨hne, hne2⟩]
      simp [jsGet_jsSet_same]
    | DUPLICATE_NODE_REJECTION e => simp [Message.fromField] at hf
    | ENCRYPTED_VOTE roundId anonId encData iv ts sig =>
      simp [Message.fromField] at hf
    | ROUND_START roundId topic ac vts st f0 =>
      have hf0 : f0 = f := by simpa [Message.fromField] using hf
      subst hf0
      simp only [handleMessage, Message.fromField, originalHandleMessage]
      rw [if_neg (by simp), if_pos ⟨hne, hne2⟩]
      rw [notifyGUIClients_nodeRegistry, (handleRoundStart_mesh _ _ _ _ _ _ _).2.2.2.1]
      simp [jsGet_jsSet_same]
    | BATCH_VOTE_KEYS roundId keys f0 =>
      have hf0 : f0 = f := by simpa [Message.fromField] using hf
      subst hf0
      simp only [handleMessage, Message.fromField, originalHandleMessage]
      rw [if_neg (by simp), if_pos ⟨hne, hne2⟩]
      rw [(handleBatchVoteKeys_mesh _ _ _ _ _).2.2.2.1]
      simp [jsGet_jsSet_same]
    | VOTE_KEY roundId anonId key f0 =>
      have hf0 : f0 = f := by simpa [Message.fromField] using hf
      subst hf0
      simp only [handleMessage, Message.fromField, originalHandleMessage]
      rw [if_neg (by simp), if_pos ⟨hne, hne2⟩]
      rw [(handleVoteKey_mesh _ _ _ _ _ _).2.2.2.1]
      simp [jsGet_jsSet_same]
    | RESULT_PROPOSAL roundId results voteCount f0 =>
      have hf0 : f0 = f := by simpa [Message.fromField] using hf
      subst hf0
      simp only [handleMessage, Message.fromField, originalHandleMessage]
      rw [if_neg (by simp), if_pos ⟨hne, hne2⟩]
      rw [(handleResultProposal_mesh _ _ _ _).2.2.2.1]
      simp [jsGet_jsSet_same]

/-- Witness for C9 (amended) at concrete inputs. -/
theorem C9_activePeers_refresh_witness :
    "bob" ∈ (handleMessage (fun _ _ _ => none) emptyState
        (.HEARTBEAT "bob") 999).activePeers
    ∧ (handleMessage (fun _ _ _ => none) emptyState
        (.RESULT_PROPOSAL "r" [] 0 "bob") 999).activePeers = emptyState.activePeers
    ∧ jsGet (handleMessage (fun _ _ _ => none) emptyState
        (.HEARTBEAT "bob") 999).nodeRegistry "bob" = some 999 :=
  ⟨C9_activePeers_refresh.2.1 _ _ _ _,
   C9_activePeers_refresh.2.2.1 _ _ _ _
     (by intro f port h; cases h) (by intro f port h; cases h)
     (by intro f h; cases h),
   C9_activePeers_refresh.2.2.2 _ _ _ _ _ rfl (by decide) (by decide)⟩

/-! ### C2: consensus threshold -/

/-- **C2.** While the current round is in `CONSENSUS` and `consensusAchieved`
is not yet set, `consensusAchieved` becomes true exactly when
`|consensusNodes|` reaches the active node count `activePeers.size + 1`; at
that moment the FINISH timer is cancelled and `finishRound` is scheduled
500 ms later; and a `RESULT_PROPOSAL` whose tally differs from ours never
adds its sender to `consensusNodes` (the handler changes nothing). -/
theorem C2_consensus_threshold :
    (∀ (s : NodeState) (round : Round), s.currentRound = some round →
        round.phase = Phase.CONSENSUS → round.consensusAchieved = false →
        getActiveNodeCount s = s.activePeers.card + 1
        ∧ (round.consensusNodes.card ≥ s.activePeers.card + 1 →
            (checkForConsensus s).currentRound =
              some { round with consensusAchieved := true }
            ∧ (checkForConsensus s).pendingTimers =
              (match round.finishTimeout with
               | some tid => s.pendingTimers.filter (fun t => t.tid ≠ tid)
               | none => s.pendingTimers)
              ++ [⟨s.nextTimerId, 500, .finishRound⟩])
        ∧ (round.consensusNodes.card < s.activePeers.card + 1 →
            checkForConsensus s = s))
    ∧ (∀ (s : NodeState) (round : Round) (results : List (String × Nat))
        (from_ : String), s.currentRound = some round →
        compareResults
          (calculateResults ((jsGet s.votes round.id).getD [])) results = false →
        handleResultProposal s round.id results from_ = s) := by
  constructor
  · intro s round hcur hph hach
    refine ⟨rfl, ?_, ?_⟩
    · intro hcard
      have hph' : ¬(round.phase ≠ Phase.CONSENSUS) := not_not_intro hph
      unfold checkForConsensus getActiveNodeCount
      simp only [hcur]
      rw [if_neg hph', if_neg (by rw [hach]; exact Bool.false_ne_true),
        if_pos hcard]
      rcases round.finishTimeout with _ | tid
      · exact ⟨rfl, rfl⟩
      · exact ⟨rfl, rfl⟩
    · intro hcard
      have hph' : ¬(round.phase ≠ Phase.CONSENSUS) := not_not_intro hph
      unfold checkForConsensus getActiveNodeCount
      simp only [hcur]
      rw [if_neg hph', if_neg (by rw [hach]; exact Bool.false_ne_true),
        if_neg (not_le.mpr hcard)]
  · intro s round results from_ hcur hcmp
    unfold handleResultProposal
    simp only [hcur]
    rw [if_neg (fun h => h rfl), hcmp]
    simp

/-- A node in `CONSENSUS` phase: `alice` with no live peers has proposed a
tally of one `yes` vote; `consensusNodes = {alice}` already meets the
threshold `activePeers.size + 1 = 1`. -/
def consensusRound : Round :=
  ⟨"round_1000_alice", "Deploy?", some ["yes", "no"], 1000, 100000, 100,
   Phase.CONSENSUS, none, false, {"alice"}, some 0, some 1⟩

def consensusState : NodeState :=
  ⟨"alice", ∅, ∅, [], [], some consensusRound,
   [("round_1000_alice", [("anon1", ⟨"yes", "anon1", 5, "round_1000_alice"⟩)])],
   [("round_1000_alice", [])], [("round_1000_alice", [])],
   [("round_1000_alice", true)], [], [], true, true,
   [⟨1, 100000, .finishRound⟩], 2, [], []⟩

/-- Witness for C2: at `consensusState` the threshold is met, so
`checkForConsensus` latches `consensusAchieved`, cancels the FINISH timer
(id 1) and schedules `finishRound` after 500 ms; and a proposal tallying
`no: 1` (ours is `yes: 1`) leaves the state unchanged. -/
theorem C2_consensus_threshold_witness :
    (checkForConsensus consensusState).currentRound =
      some { consensusRound with consensusAchieved := true }
    ∧ (checkForConsensus consensusState).pendingTimers =
      [⟨2, 500, .finishRound⟩]
    ∧ handleResultProposal consensusState "round_1000_alice" [("no", 1)] "bob"
      = consensusState := by
  have h := C2_consensus_threshold.1 consensusState consensusRound rfl rfl rfl
  have hm := (h.2.1 (by decide))
  refine ⟨hm.1, ?_, ?_⟩
  · rw [hm.2]
    rfl
  · exact C2_consensus_threshold.2 consensusState consensusRound [("no", 1)]
      "bob" rfl (by decide)

/-! ### C7: handleRoundStart -/

/-- Counterexample to C7 as stated: after `sampleState` (round
`round_1000_alice`, FINISH timer id 1 still pending) accepts a later
`ROUND_START` for `round_B`, the replaced round's FINISH timer is still
pending, and firing it finishes the *new* round `round_B` — the replaced
round's timers are not cancelled and do take effect. -/
theorem C7_counterexample :
    ((handleRoundStart sampleState "round_B" "T2" none (some 100) 2000
        5000).pendingTimers.filter (fun t => t.tid == 1))
      = [⟨1, 100000, .finishRound⟩]
    ∧ ((fireTimer (fun _ _ _ => none)
          (handleRoundStart sampleState "round_B" "T2" none (some 100) 2000 5000)
          1 (fun _ => 0) 0).currentRound.map (fun r => (r.id, r.phase)))
      = some ("round_B", Phase.FINISHED) :=
  ⟨rfl, rfl⟩

/-- **C7 (amended).** A `ROUND_START` is accepted iff there is no current
round or the incoming `startTime` is strictly greater than the current
round's; on acceptance the round is replaced by a fresh `VOTING` round and a
CONSENSUS timer (at `Math.round(0.8 × duration)` minus elapsed) and a FINISH
timer (at duration minus elapsed), each at least 100 ms, are armed; the
replaced round's pending timers are NOT cancelled: they stay armed and, when
they fire, act on whatever round is then current. A non-accepted message
leaves the state unchanged. -/
theorem C7_roundStart_accept :
    (∀ (s : NodeState) (roundId topic : String) (ac : Option (List String))
        (vts : Option ℚ) (st now : Int) (round : Round),
        s.currentRound = some round → ¬(round.startTime < st) →
        handleRoundStart s roundId topic ac vts st now = s)
    ∧ (∀ (s : NodeState) (roundId topic : String) (ac : Option (List String))
        (vts : Option ℚ) (st now : Int),
        (s.currentRound = none
         ∨ ∃ round, s.currentRound = some round ∧ round.startTime < st) →
        (handleRoundStart s roundId topic ac vts st now).currentRound =
          some ⟨roundId, topic, ac, st,
            (match vts with | some q0 => if q0 = 0 then 100 else q0 | none => 100) * 1000,
            (match vts with | some q0 => if q0 = 0 then 100 else q0 | none => 100),
            Phase.VOTING, none, false, ∅,
            some s.nextTimerId, some (s.nextTimerId + 1)⟩
        ∧ (handleRoundStart s roundId topic ac vts st now).pendingTimers =
          s.pendingTimers ++
            [⟨s.nextTimerId,
                max 100 (((jsRound ((match vts with
                  | some q0 => if q0 = 0 then 100 else q0
                  | none => 100) * 0.8 * 1000) : Int) : ℚ) - ((now - st : Int) : ℚ)),
                .enterConsensusPhase⟩,
             ⟨s.nextTimerId + 1,
                max 100 ((match vts with
                  | some q0 => if q0 = 0 then 100 else q0
                  | none => 100) * 1000 - ((now - st : Int) : ℚ)),
                .finishRound⟩]) := by
  constructor
  · intro s roundId topic ac vts st now round hcur hlt
    unfold handleRoundStart
    rw [if_neg]
    simp only [hcur]
    simpa using hlt
  · intro s roundId topic ac vts st now hacc
    have hcond : (match s.currentRound with
        | none => true
        | some round => decide (round.startTime < st)) = true := by
      rcases hacc with hnone | ⟨round, hcur, hlt⟩
      · rw [hnone]
      · rw [hcur]
        simpa using hlt
    unfold handleRoundStart
    rw [if_pos hcond]
    rcases vts with _ | q
    · exact ⟨by dsimp only [setTimeout],
        by dsimp only [setTimeout]; simp [List.append_assoc]⟩
    · by_cases hq : q = 0
      · subst hq
        exact ⟨by dsimp only [setTimeout],
          by dsimp only [setTimeout]; simp [List.append_assoc]⟩
      · refine ⟨?_, ?_⟩
        · simp only [if_neg hq]
          dsimp only [setTimeout]
        · simp only [if_neg hq]
          dsimp only [setTimeout]
          simp [List.append_assoc]

/-- Witness for C7 (amended): `sampleState` ignores an older `ROUND_START`
and accepts a newer one, arming exactly the two new timers on top of the
still-pending old ones. -/
theorem C7_roundStart_accept_witness :
    handleRoundStart sampleState "round_old" "T0" none (some 100) 500 5000
      = sampleState
    ∧ (handleRoundStart sampleState "round_B" "T2" none (some 100) 2000
        5000).pendingTimers =
      sampleState.pendingTimers ++
        [⟨2, max 100 (((jsRound ((100 : ℚ) * 0.8 * 1000) : Int) : ℚ)
            - (((5000 - 2000 : Int) : Int) : ℚ)), .enterConsensusPhase⟩,
         ⟨3, max 100 ((100 : ℚ) * 1000 - (((5000 - 2000 : Int) : Int) : ℚ)),
            .finishRound⟩] := by
  constructor
  · exact C7_roundStart_accept.1 sampleState "round_old" "T0" none (some 100)
      500 5000 sampleRound rfl (by decide)
  · exact (C7_roundStart_accept.2 sampleState "round_B" "T2" none
      (some 100) 2000 5000 (Or.inr ⟨sampleRound, rfl, by decide⟩)).2

/-! ### C5: immutability after FINISHED -/

/-- The three per-round ballot/key/decryption maps. -/
def VoteMapsFrame (s' s : NodeState) : Prop :=
  s'.votes = s.votes ∧ s'.encryptedVotes = s.encryptedVotes
  ∧ s'.voteKeys = s.voteKeys

theorem checkForConsensus_vframe (s : NodeState) :
    VoteMapsFrame (checkForConsensus s) s := by
  unfold checkForConsensus
  repeat' split
  all_goals exact ⟨rfl, rfl, rfl⟩

theorem handleResultProposal_vframe (s : NodeState) (roundId : String)
    (results : List (String × Nat)) (from_ : String) :
    VoteMapsFrame (handleResultProposal s roundId results from_) s := by
  unfold handleResultProposal
  repeat' split
  all_goals try dsimp only
  all_goals repeat' split
  all_goals first
    | exact ⟨rfl, rfl, rfl⟩
    | exact ⟨(checkForConsensus_vframe _).1, (checkForConsensus_vframe _).2.1,
        (checkForConsensus_vframe _).2.2⟩

theorem handleEncryptedVote_noop_finished (s : NodeState) (round : Round)
    (hcur : s.currentRound = some round) (hph : round.phase = Phase.FINISHED)
    (roundId anonymousVoteId encryptedData iv : String) (timestamp : Int)
    (signature : String) :
    handleEncryptedVote s roundId anonymousVoteId encryptedData iv timestamp
      signature = s := by
  by_cases hid : roundId ≠ round.id
  · simp [handleEncryptedVote, hcur, hid]
  · simp [handleEncryptedVote, hcur, hid, hph]

theorem handleBatchVoteKeys_noop_finished
    (dec : String → String → String → Option DecVote) (s : NodeState)
    (round : Round) (hcur : s.currentRound = some round)
    (hph : round.phase = Phase.FINISHED) (roundId : String)
    (keys : List (String × String)) (from_ : String) :
    handleBatchVoteKeys dec s roundId keys from_ = s := by
  by_cases hid : roundId ≠ round.id
  · simp [handleBatchVoteKeys, hcur, hid]
  · simp [handleBatchVoteKeys, hcur, hid, hph]

theorem handleVoteKey_noop_finished
    (dec : String → String → String → Option DecVote) (s : NodeState)
    (round : Round) (hcur : s.currentRound = some round)
    (hph : round.phase = Phase.FINISHED)
    (roundId anonymousVoteId key from_ : String) :
    handleVoteKey dec s roundId anonymousVoteId key from_ = s := by
  by_cases hid : roundId ≠ round.id
  · simp [handleVoteKey, hcur, hid]
  · simp [handleVoteKey, hcur, hid, hph]

theorem checkIfReadyToPropose_noop_finished
    (dec : String → String → String → Option DecVote) (s : NodeState)
    (round : Round) (hcur : s.currentRound = some round)
    (hph : round.phase = Phase.FINISHED) :
    checkIfReadyToPropose dec s = s := by
  simp [checkIfReadyToPropose, hcur, hph]

theorem proposeResults_noop_finished
    (dec : String → String → String → Option DecVote) (s : NodeState)
    (round : Round) (hcur : s.currentRound = some round)
    (hph : round.phase = Phase.FINISHED) :
    proposeResults dec s = s := by
  simp [proposeResults, hcur, hph]

theorem enterConsensusPhase_noop_finished (s : NodeState) (round : Round)
    (hcur : s.currentRound = some round) (hph : round.phase = Phase.FINISHED)
    (rand : Nat → Nat) (batchDelay : ℚ) :
    enterConsensusPhase s rand batchDelay = s := by
  simp [enterConsensusPhase, hcur, hph]

theorem checkForConsensus_noop_finished (s : NodeState) (round : Round)
    (hcur : s.currentRound = some round) (hph : round.phase = Phase.FINISHED) :
    checkForConsensus s = s := by
  simp [checkForConsensus, hcur, hph]

/-- `finishRound` is a no-op when there is no round or the round is already
finished. -/
theorem finishRound_noop (s : NodeState)
    (h : s.currentRound = none
      ∨ ∃ round, s.currentRound = some round ∧ round.phase = Phase.FINISHED) :
    finishRound s = s := by
  rcases h with h | ⟨round, hcur, hph⟩
  · simp [finishRound, h]
  · simp [finishRound, hcur, hph]

/-- After `finishRound`, the current round is absent or finished. -/
theorem finishRound_after (s : NodeState) :
    (finishRound s).currentRound = none
    ∨ ∃ round, (finishRound s).currentRound = some round
        ∧ round.phase = Phase.FINISHED := by
  rcases hcur : s.currentRound with _ | round
  · rw [finishRound_noop s (Or.inl hcur), hcur]
    exact Or.inl rfl
  · by_cases hph : round.phase = Phase.FINISHED
    · rw [finishRound_noop s (Or.inr ⟨round, hcur, hph⟩), hcur]
      exact Or.inr ⟨round, rfl, hph⟩
    · right
      unfold finishRound
      simp only [hcur]
      rw [if_neg hph]
      repeat' split
      all_goals exact ⟨_, rfl, rfl⟩

/-- A node whose round has FINISHED, retaining one encrypted ballot, one key
and one decrypted vote. -/
def finishedRound : Round :=
  { sampleRound with phase := Phase.FINISHED, results := some [("yes", 1)], consensusAchieved := true }

def finishedState : NodeState :=
  ⟨"alice", ∅, ∅, [], [], some finishedRound,
   [("round_1000_alice", [("anon1", ⟨"yes", "anon1", 5, "round_1000_alice"⟩)])],
   [("round_1000_alice",
     [("anon1", ⟨"round_1000_alice", "anon1", "deadbeef", "bb", 5, "sig"⟩)])],
   [("round_1000_alice", [("anon1", ⟨"aa", none, some "alice"⟩)])],
   [("round_1000_alice", true)], [], [("round_1000_alice", [("yes", 1)])],
   true, true, [], 4, [], []⟩

/-- Counterexample to C5 as stated: a `ROUND_START` reusing the finished
round's id with a later `startTime` is a message handler that resets the
finished round's encrypted-ballot map (and key and decrypted-vote maps) to
empty. -/
theorem C5_counterexample :
    finishedState.currentRound.map Round.phase = some Phase.FINISHED
    ∧ jsGet finishedState.encryptedVotes "round_1000_alice"
        = some [("anon1", ⟨"round_1000_alice", "anon1", "deadbeef", "bb", 5, "sig"⟩)]
    ∧ jsGet (handleRoundStart finishedState "round_1000_alice" "T" none
        (some 100) 2000 5000).encryptedVotes "round_1000_alice" = some []
    ∧ jsGet (handleRoundStart finishedState "round_1000_alice" "T" none
        (some 100) 2000 5000).voteKeys "round_1000_alice" = some []
    ∧ jsGet (handleRoundStart finishedState "round_1000_alice" "T" none
        (some 100) 2000 5000).votes "round_1000_alice" = some [] :=
  ⟨rfl, by decide, by decide, by decide, by decide⟩

/-- **C5 (amended).** Once the current round is `FINISHED`, every
voting-plane handler and operation leaves its encrypted-ballot map, key map
and decrypted-vote map unchanged — `ENCRYPTED_VOTE`, `BATCH_VOTE_KEYS`,
`VOTE_KEY`, `castVote`, the consensus checks, `enterConsensusPhase`,
`finishRound` and timer firings are no-ops on them, `RESULT_PROPOSAL` can
touch only `consensusNodes`, and a new round (local or remote) resets the
maps only under its own (fresh) round id — but a `ROUND_START` that reuses
the finished round's id with a later `startTime` does reset them (see the
counterexample). `finishRound()` called twice equals calling it once. -/
theorem C5_finished_immutable :
    (∀ (dec : String → String → String → Option DecVote) (s : NodeState)
        (round : Round),
        s.currentRound = some round → round.phase = Phase.FINISHED →
        (∀ roundId anonId encData iv ts sig,
            handleEncryptedVote s roundId anonId encData iv ts sig = s)
        ∧ (∀ roundId keys from_, handleBatchVoteKeys dec s roundId keys from_ = s)
        ∧ (∀ roundId anonId key from_,
            handleVoteKey dec s roundId anonId key from_ = s)
        ∧ (∀ choice now enc, castVote s choice now enc = s)
        ∧ checkForConsensus s = s
        ∧ checkIfReadyToPropose dec s = s
        ∧ proposeResults dec s = s
        ∧ (∀ rand bd, enterConsensusPhase s rand bd = s)
        ∧ finishRound s = s
        ∧ (∀ roundId res from_,
            VoteMapsFrame (handleResultProposal s roundId res from_) s)
        ∧ (∀ roundId topic ac vts st now, roundId ≠ round.id →
            jsGet (handleRoundStart s roundId topic ac vts st now).votes
                round.id = jsGet s.votes round.id
            ∧ jsGet (handleRoundStart s roundId topic ac vts st
                now).encryptedVotes round.id = jsGet s.encryptedVotes round.id
            ∧ jsGet (handleRoundStart s roundId topic ac vts st now).voteKeys
                round.id = jsGet s.voteKeys round.id)
        ∧ (∀ topic ac arg now,
            ("round_" ++ toString now ++ "_" ++ s.nodeId) ≠ round.id →
            jsGet (startVotingRound s topic ac arg now).votes round.id
              = jsGet s.votes round.id
            ∧ jsGet (startVotingRound s topic ac arg now).encryptedVotes
                round.id = jsGet s.encryptedVotes round.id
            ∧ jsGet (startVotingRound s topic ac arg now).voteKeys round.id
              = jsGet s.voteKeys round.id)
        ∧ (∀ tid rand bd,
            jsGet (fireTimer dec s tid rand bd).votes round.id
              = jsGet s.votes round.id
            ∧ jsGet (fireTimer dec s tid rand bd).encryptedVotes round.id
              = jsGet s.encryptedVotes round.id
            ∧ jsGet (fireTimer dec s tid rand bd).voteKeys round.id
              = jsGet s.voteKeys round.id))
    ∧ (∀ s : NodeState, finishRound (finishRound s) = finishRound s) := by
  constructor
  · intro dec s round hcur hph
    have hphV : round.phase ≠ Phase.VOTING := by simp [hph]
    refine ⟨?_, ?_, ?_, ?_, ?_, ?_, ?_, ?_, ?_, ?_, ?_, ?_, ?_⟩
    · intro roundId anonId encData iv ts sig
      exact handleEncryptedVote_noop_finished s round hcur hph _ _ _ _ _ _
    · intro roundId keys from_
      exact handleBatchVoteKeys_noop_finished dec s round hcur hph _ _ _
    · intro roundId anonId key from_
      exact handleVoteKey_noop_finished dec s round hcur hph _ _ _ _
    · intro choice now enc
      exact castVote_noop_of_phase s choice now enc round hcur hphV
    · exact checkForConsensus_noop_finished s round hcur hph
    · exact checkIfReadyToPropose_noop_finished dec s round hcur hph
    · exact proposeResults_noop_finished dec s round hcur hph
    · intro rand bd
      exact enterConsensusPhase_noop_finished s round hcur hph rand bd
    · exact finishRound_noop s (Or.inr ⟨round, hcur, hph⟩)
    · intro roundId res from_
      exact handleResultProposal_vframe s roundId res from_
    · intro roundId topic ac vts st now hne
      unfold handleRoundStart
      split
      · refine ⟨?_, ?_, ?_⟩ <;> dsimp only [setTimeout] <;>
          exact jsGet_jsSet_other _ _ _ _ (fun h => hne h.symm)
      · exact ⟨rfl, rfl, rfl⟩
    · intro topic ac arg now hne
      unfold startVotingRound
      split
      · exact ⟨rfl, rfl, rfl⟩
      · refine ⟨?_, ?_, ?_⟩ <;> dsimp only [setTimeout, broadcast] <;>
          exact jsGet_jsSet_other _ _ _ _ (fun h => hne h.symm)
    · intro tid rand bd
      unfold fireTimer
      split
      · exact ⟨rfl, rfl, rfl⟩
      · split
        · dsimp only
          rw [enterConsensusPhase_noop_finished
            { s with pendingTimers := s.pendingTimers.filter (fun u => u.tid ≠ tid) }
            round hcur hph rand bd]
          exact ⟨rfl, rfl, rfl⟩
        · dsimp only
          rw [finishRound_noop
            { s with pendingTimers := s.pendingTimers.filter (fun u => u.tid ≠ tid) }
            (Or.inr ⟨round, hcur, hph⟩)]
          exact ⟨rfl, rfl, rfl⟩
        · dsimp only
          rw [checkIfReadyToPropose_noop_finished dec
            { s with pendingTimers := s.pendingTimers.filter (fun u => u.tid ≠ tid) }
            round hcur hph]
          exact ⟨rfl, rfl, rfl⟩
        · dsimp only
          split
          · exact ⟨rfl, rfl, rfl⟩
          · exact ⟨rfl, rfl, rfl⟩
  · intro s
    exact finishRound_noop _ (finishRound_after s)

/-- Witness for C5 (amended) at `finishedState`. -/
theorem C5_finished_immutable_witness :
    handleEncryptedVote finishedState "round_1000_alice" "anonX" "41414141"
        "cc" 9 "sigX" = finishedState
    ∧ handleBatchVoteKeys (fun _ _ _ => none) finishedState "round_1000_alice"
        [("anonX", "kX")] "bob" = finishedState
    ∧ jsGet (handleRoundStart finishedState "round_fresh" "T" none (some 100)
        2000 5000).encryptedVotes "round_1000_alice"
      = jsGet finishedState.encryptedVotes "round_1000_alice"
    ∧ finishRound (finishRound sampleState) = finishRound sampleState := by
  have h := C5_finished_immutable.1 (fun _ _ _ => none) finishedState
    finishedRound rfl rfl
  exact ⟨h.1 _ _ _ _ _ _, h.2.1 _ _ _,
    (h.2.2.2.2.2.2.2.2.2.2.1 "round_fresh" "T" none (some 100) 2000 5000
      (by decide)).2.1,
    C5_finished_immutable.2 sampleState⟩

/-! ### C3: key-release provenance -/

theorem mem_jsSet {α : Type} (m : JsMap α) (k : String) (v : α)
    (p : String × α) (hp : p ∈ jsSet m k v) : p = (k, v) ∨ p ∈ m := by
  unfold jsSet at hp
  by_cases h : jsHas m k = true
  · rw [if_pos h] at hp
    rw [List.mem_map] at hp
    obtain ⟨q, hq, hqp⟩ := hp
    by_cases hq1 : (q.1 == k) = true
    · rw [if_pos hq1] at hqp
      exact Or.inl hqp.symm
    · rw [if_neg hq1] at hqp
      exact Or.inr (hqp ▸ hq)
  · rw [if_neg h] at hp
    rw [List.mem_append, List.mem_singleton] at hp
    exact hp.symm

theorem handleBatchVoteKeys_noop_guard
    (dec : String → String → String → Option DecVote) (s : NodeState)
    (round : Round) (hcur : s.currentRound = some round)
    (hph : round.phase ≠ Phase.CONSENSUS) (roundId : String)
    (keys : List (String × String)) (from_ : String) :
    handleBatchVoteKeys dec s roundId keys from_ = s := by
  by_cases hid : roundId ≠ round.id
  · simp [handleBatchVoteKeys, hcur, hid]
  · simp [handleBatchVoteKeys, hcur, hid, hph]

theorem handleVoteKey_noop_guard
    (dec : String → String → String → Option DecVote) (s : NodeState)
    (round : Round) (hcur : s.currentRound = some round)
    (hph : round.phase ≠ Phase.CONSENSUS)
    (roundId anonymousVoteId key from_ : String) :
    handleVoteKey dec s roundId anonymousVoteId key from_ = s := by
  by_cases hid : roundId ≠ round.id
  · simp [handleVoteKey, hcur, hid]
  · simp [handleVoteKey, hcur, hid, hph]

theorem checkIfReadyToPropose_noop_guard
    (dec : String → String → String → Option DecVote) (s : NodeState)
    (round : Round) (hcur : s.currentRound = some round)
    (hph : round.phase ≠ Phase.CONSENSUS) :
    checkIfReadyToPropose dec s = s := by
  simp [checkIfReadyToPropose, hcur, hph]

/-- The round id and phase (of the current round) seen by an operation that
never rearms or replaces the round. -/
def roundView (s : NodeState) : Option (String × Phase) :=
  s.currentRound.map (fun r => (r.id, r.phase))

theorem decryptAndProcessVotes_currentRound
    (dec : String → String → String → Option DecVote) (s : NodeState) :
    (decryptAndProcessVotes dec s).currentRound = s.currentRound := by
  unfold decryptAndProcessVotes
  repeat' split
  all_goals rfl

theorem checkForConsensus_roundView (s : NodeState) :
    roundView (checkForConsensus s) = roundView s := by
  unfold checkForConsensus roundView
  repeat' split
  all_goals simp_all [setTimeout, clearTimeout]

theorem proposeResults_roundView
    (dec : String → String → String → Option DecVote) (s : NodeState) :
    roundView (proposeResults dec s) = roundView s := by
  unfold proposeResults
  repeat' split
  all_goals try rfl
  all_goals rw [checkForConsensus_roundView]
  all_goals simp_all [roundView]

theorem checkIfReadyToPropose_roundView
    (dec : String → String → String → Option DecVote) (s : NodeState) :
    roundView (checkIfReadyToPropose dec s) = roundView s := by
  unfold checkIfReadyToPropose
  repeat' split
  all_goals try dsimp only
  all_goals repeat' split
  all_goals first
    | rfl
    | exact proposeResults_roundView dec _

theorem handleBatchVoteKeys_roundView
    (dec : String → String → String → Option DecVote) (s : NodeState)
    (roundId : String) (keys : List (String × String)) (from_ : String) :
    roundView (handleBatchVoteKeys dec s roundId keys from_) = roundView s := by
  unfold handleBatchVoteKeys
  repeat' split
  all_goals try dsimp only
  all_goals repeat' split
  all_goals first
    | rfl
    | rw [checkIfReadyToPropose_roundView, roundView, roundView,
        decryptAndProcessVotes_currentRound]
    | rw [roundView, roundView, decryptAndProcessVotes_currentRound]

theorem handleVoteKey_roundView
    (dec : String → String → String → Option DecVote) (s : NodeState)
    (roundId anonymousVoteId key from_ : String) :
    roundView (handleVoteKey dec s roundId anonymousVoteId key from_)
      = roundView s := by
  unfold handleVoteKey
  repeat' split
  all_goals try dsimp only
  all_goals repeat' split
  all_goals first
    | rfl
    | rw [checkIfReadyToPropose_roundView, roundView, roundView,
        decryptAndProcessVotes_currentRound]
    | rw [roundView, roundView, decryptAndProcessVotes_currentRound]

theorem handleResultProposal_roundView (s : NodeState) (roundId : String)
    (results : List (String × Nat)) (from_ : String) :
    roundView (handleResultProposal s roundId results from_) = roundView s := by
  unfold handleResultProposal
  repeat' split
  all_goals try dsimp only
  all_goals repeat' split
  all_goals first
    | rfl
    | (rw [checkForConsensus_roundView]; simp_all [roundView])

theorem handleEncryptedVote_currentRound (s : NodeState)
    (roundId anonymousVoteId encryptedData iv : String) (timestamp : Int)
    (signature : String) :
    (handleEncryptedVote s roundId anonymousVoteId encryptedData iv timestamp
      signature).currentRound = s.currentRound := by
  unfold handleEncryptedVote
  repeat' split
  all_goals rfl

theorem handleEncryptedVote_voteKeys (s : NodeState)
    (roundId anonymousVoteId encryptedData iv : String) (timestamp : Int)
    (signature : String) :
    (handleEncryptedVote s roundId anonymousVoteId encryptedData iv timestamp
      signature).voteKeys = s.voteKeys := by
  unfold handleEncryptedVote
  repeat' split
  all_goals rfl

theorem decryptAndProcessVotes_voteKeys
    (dec : String → String → String → Option DecVote) (s : NodeState) :
    (decryptAndProcessVotes dec s).voteKeys = s.voteKeys := by
  unfold decryptAndProcessVotes
  repeat' split
  all_goals rfl

theorem proposeResults_voteKeys
    (dec : String → String → String → Option DecVote) (s : NodeState) :
    (proposeResults dec s).voteKeys = s.voteKeys := by
  unfold proposeResults
  repeat' split
  all_goals try rw [(checkForConsensus_vframe _).2.2]
  all_goals first
    | rfl
    | (dsimp only [broadcast]; rw [decryptAndProcessVotes_voteKeys])

theorem checkIfReadyToPropose_voteKeys
    (dec : String → String → String → Option DecVote) (s : NodeState) :
    (checkIfReadyToPropose dec s).voteKeys = s.voteKeys := by
  unfold checkIfReadyToPropose
  repeat' split
  all_goals try dsimp only
  all_goals repeat' split
  all_goals first
    | rfl
    | exact proposeResults_voteKeys dec _

/-- Transfer of the own-keys property along states that agree on the round
view, the key map and the node id. -/
def OwnKeysInv (s : NodeState) : Prop :=
  ∀ round, s.currentRound = some round → round.phase = Phase.VOTING →
    ∀ p ∈ (jsGet s.voteKeys round.id).getD [],
      p.2.submittedBy = some s.nodeId ∧ p.2.keyProvider = none

theorem OwnKeysInv_of_view (s' s : NodeState) (hview : roundView s' = roundView s)
    (hkeys : s'.voteKeys = s.voteKeys) (hnid : s'.nodeId = s.nodeId)
    (hinv : OwnKeysInv s) : OwnKeysInv s' := by
  intro round' hcur' hph' p hp
  rcases hcurS : s.currentRound with _ | round
  · simp [roundView, hcur', hcurS] at hview
  · simp only [roundView, hcur', hcurS, Option.map_some', Option.some.injEq,
      Prod.mk.injEq] at hview
    rw [hkeys, hview.1] at hp
    rw [hnid]
    exact hinv round hcurS (hview.2 ▸ hph') p hp

/-- `castVote` in the accepting case: the key map gains exactly our own
entry, tagged `submittedBy = us`, and the round is untouched. -/
theorem castVote_accept_keys (s : NodeState) (choice : String) (now : Int)
    (enc : EncResult) (round : Round) (hcur : s.currentRound = some round)
    (hph : round.phase = Phase.VOTING)
    (hvoted : jsGet s.hasVotedInRound round.id ≠ some true)
    (hallowed : ∀ allowed, round.allowedChoices = some allowed →
        (jsToLower choice) ∈ allowed.map jsToLower) :
    (castVote s choice now enc).currentRound = s.currentRound
    ∧ (castVote s choice now enc).nodeId = s.nodeId
    ∧ (castVote s choice now enc).voteKeys = jsSet s.voteKeys round.id
        (jsSet ((jsGet s.voteKeys round.id).getD []) enc.anonymousVoteId
          ⟨enc.key, none, some s.nodeId⟩) := by
  have hguard : (match round.allowedChoices with
      | some allowed => !(allowed.map jsToLower).contains (jsToLower choice)
      | none => false) = false := by
    rcases hac : round.allowedChoices with _ | allowed
    · rfl
    · simp only [Bool.not_eq_true']
      simp [hallowed allowed hac]
  have hph' : ¬(round.phase ≠ Phase.VOTING) := not_not_intro hph
  unfold castVote
  simp only [hcur]
  rw [if_neg hph', if_neg hvoted, hguard]
  simp [broadcast]

/-- `handleRoundStart` either ignores the message or installs a fresh
`VOTING` round under the message's round id with an empty key map. -/
theorem handleRoundStart_cases (s : NodeState) (roundId topic : String)
    (ac : Option (List String)) (vts : Option ℚ) (st now : Int) :
    handleRoundStart s roundId topic ac vts st now = s
    ∨ ∃ round0 : Round,
        (handleRoundStart s roundId topic ac vts st now).currentRound = some round0
        ∧ round0.id = roundId ∧ round0.phase = Phase.VOTING
        ∧ (handleRoundStart s roundId topic ac vts st now).voteKeys
            = jsSet s.voteKeys roundId []
        ∧ (handleRoundStart s roundId topic ac vts st now).nodeId = s.nodeId := by
  unfold handleRoundStart
  split
  · right
    exact ⟨_, rfl, rfl, rfl, rfl, rfl⟩
  · left
    rfl

/-- `startVotingRound` either refuses or installs a fresh `VOTING` round
under the newly minted id with an empty key map. -/
theorem startVotingRound_cases (s : NodeState) (topic : String)
    (ac : Option (List String)) (arg : JsValue) (now : Int) :
    startVotingRound s topic ac arg now = s
    ∨ ∃ round0 : Round,
        (startVotingRound s topic ac arg now).currentRound = some round0
        ∧ round0.id = "round_" ++ toString now ++ "_" ++ s.nodeId
        ∧ round0.phase = Phase.VOTING
        ∧ (startVotingRound s topic ac arg now).voteKeys
            = jsSet s.voteKeys ("round_" ++ toString now ++ "_" ++ s.nodeId) []
        ∧ (startVotingRound s topic ac arg now).nodeId = s.nodeId := by
  unfold startVotingRound
  split
  · left
    rfl
  · right
    exact ⟨_, rfl, rfl, rfl, rfl, rfl⟩

/-- After `enterConsensusPhase` the node is unchanged or its round is in
`CONSENSUS`; either way the key map and node id are unchanged. -/
theorem enterConsensusPhase_cases (s : NodeState) (rand : Nat → Nat)
    (batchDelay : ℚ) :
    enterConsensusPhase s rand batchDelay = s
    ∨ ((∃ rid, roundView (enterConsensusPhase s rand batchDelay)
          = some (rid, Phase.CONSENSUS))
        ∧ (enterConsensusPhase s rand batchDelay).voteKeys = s.voteKeys
        ∧ (enterConsensusPhase s rand batchDelay).nodeId = s.nodeId) := by
  unfold enterConsensusPhase
  split
  · left
    rfl
  · split
    · left
      rfl
    · right
      exact ⟨⟨_, rfl⟩, rfl, rfl⟩

theorem castVote_ownKeys (s : NodeState) (choice : String) (now : Int)
    (enc : EncResult) (hinv : OwnKeysInv s) :
    OwnKeysInv (castVote s choice now enc) := by
  rcases hcur : s.currentRound with _ | round
  · rw [castVote_noop_of_noRound s choice now enc hcur]
    exact hinv
  · by_cases hph : round.phase = Phase.VOTING
    · by_cases hvoted : jsGet s.hasVotedInRound round.id = some true
      · rw [castVote_noop_of_voted s choice now enc round hcur hvoted]
        exact hinv
      · by_cases hbad : ∃ allowed, round.allowedChoices = some allowed
            ∧ (jsToLower choice) ∉ allowed.map jsToLower
        · obtain ⟨allowed, hac, hmem⟩ := hbad
          rw [castVote_noop_of_badChoice s choice now enc round hcur allowed hac hmem]
          exact hinv
        · push_neg at hbad
          obtain ⟨hcr, hnid, hkeys⟩ :=
            castVote_accept_keys s choice now enc round hcur hph hvoted hbad
          intro round' hcur' hph' p hp
          rw [hcr, hcur] at hcur'
          injection hcur' with h
          subst h
          rw [hkeys, jsGet_jsSet_same] at hp
          simp only [Option.getD_some] at hp
          rcases mem_jsSet _ _ _ p hp with hpe | hpm
          · subst hpe
            rw [hnid]
            exact ⟨rfl, rfl⟩
          · rw [hnid]
            exact hinv round hcur hph p hpm
    · rw [castVote_noop_of_phase s choice now enc round hcur hph]
      exact hinv

theorem handleBatchVoteKeys_ownKeys
    (dec : String → String → String → Option DecVote) (s : NodeState)
    (roundId : String) (keys : List (String × String)) (from_ : String)
    (hinv : OwnKeysInv s) :
    OwnKeysInv (handleBatchVoteKeys dec s roundId keys from_) := by
  rcases hcur : s.currentRound with _ | round
  · have hnoop : handleBatchVoteKeys dec s roundId keys from_ = s := by
      unfold handleBatchVoteKeys
      rw [hcur]
    rw [hnoop]
    exact hinv
  · by_cases hph : round.phase = Phase.CONSENSUS
    · intro round' hcur' hph' p hp
      exfalso
      have hv := handleBatchVoteKeys_roundView dec s roundId keys from_
      simp only [roundView, hcur', hcur, Option.map_some', Option.some.injEq,
        Prod.mk.injEq] at hv
      have h2 := hv.2
      rw [hph', hph] at h2
      simp at h2
    · rw [handleBatchVoteKeys_noop_guard dec s round hcur hph roundId keys from_]
      exact hinv

theorem handleVoteKey_ownKeys
    (dec : String → String → String → Option DecVote) (s : NodeState)
    (roundId anonymousVoteId key from_ : String) (hinv : OwnKeysInv s) :
    OwnKeysInv (handleVoteKey dec s roundId anonymousVoteId key from_) := by
  rcases hcur : s.currentRound with _ | round
  · have hnoop : handleVoteKey dec s roundId anonymousVoteId key from_ = s := by
      unfold handleVoteKey
      rw [hcur]
    rw [hnoop]
    exact hinv
  · by_cases hph : round.phase = Phase.CONSENSUS
    · intro round' hcur' hph' p hp
      exfalso
      have hv := handleVoteKey_roundView dec s roundId anonymousVoteId key from_
      simp only [roundView, hcur', hcur, Option.map_some', Option.some.injEq,
        Prod.mk.injEq] at hv
      have h2 := hv.2
      rw [hph', hph] at h2
      simp at h2
    · rw [handleVoteKey_noop_guard dec s round hcur hph roundId anonymousVoteId
        key from_]
      exact hinv

theorem checkIfReadyToPropose_ownKeys
    (dec : String → String → String → Option DecVote) (s : NodeState)
    (hinv : OwnKeysInv s) : OwnKeysInv (checkIfReadyToPropose dec s) :=
  OwnKeysInv_of_view _ s (checkIfReadyToPropose_roundView dec s)
    (checkIfReadyToPropose_voteKeys dec s) (checkIfReadyToPropose_mesh dec s).1 hinv

theorem enterConsensusPhase_ownKeys (s : NodeState) (rand : Nat → Nat)
    (batchDelay : ℚ) (hinv : OwnKeysInv s) :
    OwnKeysInv (enterConsensusPhase s rand batchDelay) := by
  rcases enterConsensusPhase_cases s rand batchDelay with hnoop | ⟨⟨rid, hview⟩, hkeys, hnid⟩
  · rw [hnoop]
    exact hinv
  · intro round' hcur' hph' p hp
    exfalso
    simp only [roundView, hcur', Option.map_some', Option.some.injEq,
      Prod.mk.injEq] at hview
    have h2 := hview.2
    rw [hph'] at h2
    simp at h2

theorem finishRound_ownKeys (s : NodeState) : OwnKeysInv (finishRound s) := by
  intro round' hcur' hph' p hp
  exfalso
  rcases finishRound_after s with hnone | ⟨r, hcr, hphF⟩
  · rw [hnone] at hcur'
    simp at hcur'
  · rw [hcr] at hcur'
    injection hcur' with h
    subst h
    rw [hph'] at hphF
    simp at hphF

theorem handleRoundStart_ownKeys (s : NodeState) (roundId topic : String)
    (ac : Option (List String)) (vts : Option ℚ) (st now : Int)
    (hinv : OwnKeysInv s) :
    OwnKeysInv (handleRoundStart s roundId topic ac vts st now) := by
  rcases handleRoundStart_cases s roundId topic ac vts st now with
    hnoop | ⟨round0, hcur0, hid, hph0, hkeys, hnid⟩
  · rw [hnoop]
    exact hinv
  · intro round' hcur' hph' p hp
    rw [hcur0] at hcur'
    injection hcur' with h
    subst h
    rw [hkeys, hid, jsGet_jsSet_same] at hp
    simp at hp

theorem startVotingRound_ownKeys (s : NodeState) (topic : String)
    (ac : Option (List String)) (arg : JsValue) (now : Int)
    (hinv : OwnKeysInv s) :
    OwnKeysInv (startVotingRound s topic ac arg now) := by
  rcases startVotingRound_cases s topic ac arg now with
    hnoop | ⟨round0, hcur0, hid, hph0, hkeys, hnid⟩
  · rw [hnoop]
    exact hinv
  · intro round' hcur' hph' p hp
    rw [hcur0] at hcur'
    injection hcur' with h
    subst h
    rw [hkeys, hid, jsGet_jsSet_same] at hp
    simp at hp

theorem originalHandleMessage_ownKeys
    (dec : String → String → String → Option DecVote) (s : NodeState)
    (m : Message) (now : Int) (hinv : OwnKeysInv s) :
    OwnKeysInv (originalHandleMessage dec s m now) := by
  cases m with
  | HANDSHAKE f port =>
    unfold originalHandleMessage
    dsimp only
    split
    · exact hinv
    · exact hinv
  | HANDSHAKE_ACK f port =>
    unfold originalHandleMessage
    dsimp only
    split
    · exact hinv
    · exact hinv
  | PEER_EXCHANGE_REQUEST f => exact hinv
  | PEER_EXCHANGE_RESPONSE f => exact hinv
  | DUPLICATE_NODE_REJECTION e => exact hinv
  | HEARTBEAT f => exact hinv
  | ROUND_START roundId topic ac vts st f =>
    exact handleRoundStart_ownKeys s roundId topic ac vts st now hinv
  | ENCRYPTED_VOTE roundId anonId encData iv ts sig =>
    exact OwnKeysInv_of_view (handleEncryptedVote s roundId anonId encData iv ts sig) s
      (by unfold roundView; rw [handleEncryptedVote_currentRound])
      (handleEncryptedVote_voteKeys s roundId anonId encData iv ts sig)
      (handleEncryptedVote_mesh s roundId anonId encData iv ts sig).1 hinv
  | BATCH_VOTE_KEYS roundId keys f =>
    exact handleBatchVoteKeys_ownKeys dec s roundId keys f hinv
  | VOTE_KEY roundId anonId key f =>
    exact handleVoteKey_ownKeys dec s roundId anonId key f hinv
  | RESULT_PROPOSAL roundId results voteCount f =>
    exact OwnKeysInv_of_view _ s (handleResultProposal_roundView s roundId results f)
      (handleResultProposal_vframe s roundId results f).2.2
      (handleResultProposal_mesh s roundId results f).1 hinv

theorem handleMessage_ownKeys
    (dec : String → String → String → Option DecVote) (s : NodeState)
    (m : Message) (now : Int) (hinv : OwnKeysInv s) :
    OwnKeysInv (handleMessage dec s m now) := by
  unfold handleMessage
  split
  · exact hinv
  · cases m with
    | DUPLICATE_NODE_REJECTION e => exact hinv
    | ENCRYPTED_VOTE roundId anonId encData iv ts sig =>
      exact originalHandleMessage_ownKeys dec s _ now hinv
    | HANDSHAKE f port =>
      dsimp only [Message.fromField]
      split
      · exact originalHandleMessage_ownKeys dec _ _ now hinv
      · exact originalHandleMessage_ownKeys dec _ _ now hinv
    | HANDSHAKE_ACK f port =>
      dsimp only [Message.fromField]
      split
      · exact originalHandleMessage_ownKeys dec _ _ now hinv
      · exact originalHandleMessage_ownKeys dec _ _ now hinv
    | PEER_EXCHANGE_REQUEST f =>
      dsimp only [Message.fromField]
      split
      · exact originalHandleMessage_ownKeys dec _ _ now hinv
      · exact originalHandleMessage_ownKeys dec _ _ now hinv
    | PEER_EXCHANGE_RESPONSE f =>
      dsimp only [Message.fromField]
      split
      · exact originalHandleMessage_ownKeys dec _ _ now hinv
      · exact originalHandleMessage_ownKeys dec _ _ now hinv
    | HEARTBEAT f =>
      dsimp only [Message.fromField]
      split
      · exact originalHandleMessage_ownKeys dec _ _ now hinv
      · exact originalHandleMessage_ownKeys dec _ _ now hinv
    | ROUND_START roundId topic ac vts st f =>
      dsimp only [Message.fromField]
      split
      · exact originalHandleMessage_ownKeys dec _ _ now hinv
      · exact originalHandleMessage_ownKeys dec _ _ now hinv
    | BATCH_VOTE_KEYS roundId keys f =>
      dsimp only [Message.fromField]
      split
      · exact originalHandleMessage_ownKeys dec _ _ now hinv
      · exact originalHandleMessage_ownKeys dec _ _ now hinv
    | VOTE_KEY roundId anonId key f =>
      dsimp only [Message.fromField]
      split
      · exact originalHandleMessage_ownKeys dec _ _ now hinv
      · exact originalHandleMessage_ownKeys dec _ _ now hinv
    | RESULT_PROPOSAL roundId results voteCount f =>
      dsimp only [Message.fromField]
      split
      · exact originalHandleMessage_ownKeys dec _ _ now hinv
      · exact originalHandleMessage_ownKeys dec _ _ now hinv

theorem fireTimer_ownKeys (dec : String → String → String → Option DecVote)
    (s : NodeState) (tid : Nat) (rand : Nat → Nat) (batchDelay : ℚ)
    (hinv : OwnKeysInv s) :
    OwnKeysInv (fireTimer dec s tid rand batchDelay) := by
  unfold fireTimer
  split
  · exact hinv
  · split
    · exact enterConsensusPhase_ownKeys _ rand batchDelay hinv
    · exact finishRound_ownKeys _
    · exact checkIfReadyToPropose_ownKeys dec _ hinv
    · dsimp only
      split
      · exact hinv
      · exact hinv

/-- One asynchronous node step: an inbound message is handled, a local
ballot is cast, a round is started locally, or a pending timer fires. -/
inductive Event where
  | deliver (m : Message) (now : Int)
  | vote (choice : String) (now : Int) (enc : EncResult)
  | startRound (topic : String) (ac : Option (List String)) (arg : JsValue) (now : Int)
  | timer (tid : Nat) (rand : Nat → Nat) (batchDelay : ℚ)

def stepEvent (dec : String → String → String → Option DecVote)
    (s : NodeState) : Event → NodeState
  | .deliver m now => handleMessage dec s m now
  | .vote choice now enc => castVote s choice now enc
  | .startRound topic ac arg now => startVotingRound s topic ac arg now
  | .timer tid rand batchDelay => fireTimer dec s tid rand batchDelay

theorem stepEvent_ownKeys (dec : String → String → String → Option DecVote)
    (s : NodeState) (e : Event) (hinv : OwnKeysInv s) :
    OwnKeysInv (stepEvent dec s e) := by
  cases e with
  | deliver m now => exact handleMessage_ownKeys dec s m now hinv
  | vote choice now enc => exact castVote_ownKeys s choice now enc hinv
  | startRound topic ac arg now => exact startVotingRound_ownKeys s topic ac arg now hinv
  | timer tid rand batchDelay => exact fireTimer_ownKeys dec s tid rand batchDelay hinv

/-! ## C3: provenance of the batch key release -/

/-- C3 trace, step 1: `alice` casts her vote in `round_1000_alice`. Her key
pair `("anon1", "aa")` is stored under that round. -/
def c3Voted : NodeState := castVote sampleState "yes" 2000 sampleEnc

/-- C3 trace, step 2: the CONSENSUS timer (id 0) fires; the batch broadcast
of `[("anon1", "aa")]` is armed with a 700 ms delay as timer id 2. -/
def c3Consensus : NodeState := fireTimer (fun _ _ _ => none) c3Voted 0 (fun _ => 0) 700

/-- C3 trace, step 3: before the batch timer fires, a remote `ROUND_START`
for `round_B` (later `startTime`) is accepted and replaces the round. -/
def c3NewRound : NodeState :=
  handleRoundStart c3Consensus "round_B" "T2" none (some 100) 2000 5000

/-- C3 trace, step 4: the still-pending batch timer (id 2) fires. -/
def c3Fired : NodeState := fireTimer (fun _ _ _ => none) c3NewRound 2 (fun _ => 0) 700

/-- The round installed by the `ROUND_START` of the C3 trace. -/
def c3RoundB : Round :=
  ⟨"round_B", "T2", none, 2000, 100 * 1000, 100, Phase.VOTING, none, false,
   ∅, some 4, some 5⟩

/-- **C3 (counterexample).** The batch broadcast callback reads
`this.currentRound.id` at fire time. In the trace above the node broadcasts
`BATCH_VOTE_KEYS` for `round_B` carrying the pair `("anon1", "aa")`, although
the key map it holds for `round_B` is empty: the released key belongs to a
ciphertext of the replaced round `round_1000_alice`, so the broadcast list is
not a permutation of the pairs the node generated for the labelled round. -/
theorem C3_counterexample :
    c3Fired.outbox.filter (fun m => match m with
      | Message.BATCH_VOTE_KEYS _ _ _ => true
      | _ => false)
      = [Message.BATCH_VOTE_KEYS "round_B" [("anon1", "aa")] "alice"]
    ∧ jsGet c3NewRound.voteKeys "round_B" = some []
    ∧ c3NewRound.currentRound = some c3RoundB := by
  exact ⟨rfl, rfl, rfl⟩

/-- **C3 (amended).** (1) On entering `CONSENSUS` from `VOTING` the node arms
exactly one delayed batch broadcast, whose key list is the Fisher–Yates
shuffle of precisely the `(anonymousVoteId, key)` pairs stored for the
current round, together with the 10 s readiness timer; (2) the shuffle is a
permutation of its input; (3) while a round is in `VOTING`, every stored key
pair for it is self-generated (`submittedBy` is the local node, no
`keyProvider`), and this invariant is preserved by every node step, so the
shuffled list contains only keys whose ciphertexts the node itself produced;
but (4) when the armed batch timer fires, the single `BATCH_VOTE_KEYS` is
labelled with whatever round is current at fire time, which need not be the
round the keys were generated for. -/
theorem C3_key_release :
    (∀ (s : NodeState) (round : Round) (rand : Nat → Nat) (batchDelay : ℚ),
      s.currentRound = some round → round.phase = Phase.VOTING →
        (enterConsensusPhase s rand batchDelay).pendingTimers
          = s.pendingTimers
            ++ [⟨s.nextTimerId, batchDelay, TimerAction.broadcastBatchKeys
                  (shuffleArray (((jsGet s.voteKeys round.id).getD []).map
                    (fun p => (p.1, p.2.key))) rand)⟩,
                ⟨s.nextTimerId + 1, 10000, TimerAction.checkIfReadyToPropose⟩])
    ∧ (∀ (l : List (String × String)) (rand : Nat → Nat),
        (shuffleArray l rand).Perm l)
    ∧ (∀ (dec : String → String → String → Option DecVote) (s : NodeState)
        (e : Event), OwnKeysInv s → OwnKeysInv (stepEvent dec s e))
    ∧ (∀ (dec : String → String → String → Option DecVote) (s : NodeState)
        (tid : Nat) (rand : Nat → Nat) (batchDelay : ℚ) (t : Timer)
        (keys : List (String × String)) (round : Round),
        s.pendingTimers.find? (fun u => u.tid == tid) = some t →
        t.action = TimerAction.broadcastBatchKeys keys →
        s.currentRound = some round →
        (fireTimer dec s tid rand batchDelay).outbox
          = s.outbox ++ [Message.BATCH_VOTE_KEYS round.id keys s.nodeId]) := by
  refine ⟨?_, ?_, ?_, ?_⟩
  · intro s round rand batchDelay hcur hph
    unfold enterConsensusPhase
    rw [hcur]
    dsimp only
    simp [hph, setTimeout, notifyGUIClients, List.append_assoc]
  · intro l rand
    exact shuffleArray_perm l rand
  · intro dec s e hinv
    exact stepEvent_ownKeys dec s e hinv
  · intro dec s tid rand batchDelay t keys round hfind hact hcur
    unfold fireTimer
    rw [hfind]
    dsimp only
    rw [hact]
    dsimp only
    rw [hcur]
    dsimp only [broadcast]

/-- Witness for C3 at the concrete trace: the consensus entry after voting
arms the batch timer with the shuffle of the single own pair; the shuffle of
a singleton is a permutation; the own-keys invariant is preserved by the
vote step from `sampleState`; and the fired batch timer appends the
`BATCH_VOTE_KEYS` labelled with the round current at fire time. -/
theorem C3_key_release_witness :
    ((c3Voted.currentRound = some sampleRound
        ∧ sampleRound.phase = Phase.VOTING)
      ∧ (enterConsensusPhase c3Voted (fun _ => 0) 700).pendingTimers
          = c3Voted.pendingTimers
            ++ [⟨c3Voted.nextTimerId, 700, TimerAction.broadcastBatchKeys
                  (shuffleArray (((jsGet c3Voted.voteKeys sampleRound.id).getD []).map
                    (fun p => (p.1, p.2.key))) (fun _ => 0))⟩,
                ⟨c3Voted.nextTimerId + 1, 10000, TimerAction.checkIfReadyToPropose⟩])
    ∧ (shuffleArray [("anon1", "aa")] (fun _ => 0)).Perm [("anon1", "aa")]
    ∧ OwnKeysInv (stepEvent (fun _ _ _ => none) sampleState
        (Event.vote "yes" 2000 sampleEnc))
    ∧ (fireTimer (fun _ _ _ => none) c3NewRound 2 (fun _ => 0) 700).outbox
        = c3NewRound.outbox
          ++ [Message.BATCH_VOTE_KEYS "round_B" [("anon1", "aa")] "alice"] := by
  have hinv : OwnKeysInv sampleState := by
    intro round hr hph p hp
    have h := Option.some.inj hr
    subst h
    have hnil : (jsGet sampleState.voteKeys sampleRound.id).getD []
        = ([] : JsMap KeyEntry) := rfl
    rw [hnil] at hp
    exact absurd hp (List.not_mem_nil p)
  refine ⟨⟨⟨rfl, rfl⟩, C3_key_release.1 c3Voted sampleRound (fun _ => 0) 700 rfl rfl⟩,
    C3_key_release.2.1 [("anon1", "aa")] (fun _ => 0),
    C3_key_release.2.2.1 (fun _ _ _ => none) sampleState
      (Event.vote "yes" 2000 sampleEnc) hinv,
    ?_⟩
  exact C3_key_release.2.2.2 (fun _ _ _ => none) c3NewRound 2 (fun _ => 0) 700
    ⟨2, 700, TimerAction.broadcastBatchKeys [("anon1", "aa")]⟩ [("anon1", "aa")]
    c3RoundB rfl rfl rfl

/-! ## C6: vote encryption roundtrip (lines 899-944)

`encryptVote`/`decryptVote` wrap Node's `aes-256-cbc` (PKCS#7 padding, hex
transport) around `JSON.stringify`/`JSON.parse` of the vote record. The AES
block permutation itself is library code, modelled by an abstract pair
`E`/`D` of functions on 16-byte blocks; everything else - CBC chaining,
padding, hex, the record serialisation - is implemented concretely below. -/


/-! Bytes: XOR, 16-byte chunking, CBC, PKCS#7, hex, code-point text codec. -/

def xorBytes (a b : List Nat) : List Nat := List.zipWith (fun x y => x ^^^ y) a b

theorem xorBytes_length (a b : List Nat) :
    (xorBytes a b).length = min a.length b.length := List.length_zipWith _ _ _

theorem xorBytes_cancel (a b : List Nat) (h : a.length = b.length) :
    xorBytes (xorBytes a b) b = a := by
  induction a generalizing b with
  | nil => simp [xorBytes]
  | cons x xs ih =>
    cases b with
    | nil => simp at h
    | cons y ys =>
      have hx : (x ^^^ y) ^^^ y = x := by
        rw [Nat.xor_assoc, Nat.xor_self, Nat.xor_zero]
      simp only [xorBytes] at ih ⊢
      simp only [List.zipWith_cons_cons]
      rw [hx]
      exact congrArg (x :: ·) (ih ys (by simpa using h))

theorem xorBytes_lt (a b : List Nat) (ha : ∀ x ∈ a, x < 256) (hb : ∀ x ∈ b, x < 256) :
    ∀ x ∈ xorBytes a b, x < 256 := by
  induction a generalizing b with
  | nil => simp [xorBytes]
  | cons x xs ih =>
    cases b with
    | nil => simp [xorBytes]
    | cons y ys =>
      intro z hz
      simp only [xorBytes, List.zipWith_cons_cons, List.mem_cons] at hz
      rcases hz with hz | hz
      · subst hz
        have : x ^^^ y < 2 ^ 8 :=
          Nat.xor_lt_two_pow (by simpa using ha x (by simp)) (by simpa using hb y (by simp))
        simpa using this
      · exact ih ys (fun u hu => ha u (by simp [hu])) (fun u hu => hb u (by simp [hu])) z hz

def chunkAux : List Nat → List Nat → List (List Nat)
  | acc, [] => if acc.isEmpty then [] else [acc]
  | acc, x :: xs =>
    if acc.length = 15 then (acc ++ [x]) :: chunkAux [] xs
    else chunkAux (acc ++ [x]) xs

def chunk16 (l : List Nat) : List (List Nat) := chunkAux [] l

theorem chunkAux_block (b : List Nat) : ∀ (acc rest : List Nat),
    acc.length + b.length = 16 → b ≠ [] →
    chunkAux acc (b ++ rest) = (acc ++ b) :: chunkAux [] rest := by
  induction b with
  | nil => intro acc rest h hne; exact absurd rfl hne
  | cons x b' ih =>
    intro acc rest h hne
    cases b' with
    | nil =>
      have h15 : acc.length = 15 := by simpa using h
      simp only [List.cons_append, List.nil_append, chunkAux]
      rw [if_pos h15]
      simp
    | cons y b'' =>
      have hlt : acc.length ≠ 15 := by
        simp only [List.length_cons] at h
        omega
      simp only [List.cons_append]
      rw [show chunkAux acc (x :: y :: (b'' ++ rest))
          = if acc.length = 15 then (acc ++ [x]) :: chunkAux [] (y :: (b'' ++ rest))
            else chunkAux (acc ++ [x]) (y :: (b'' ++ rest)) from rfl]
      rw [if_neg hlt]
      have hih := ih (acc ++ [x]) rest (by simp at h ⊢; omega) (by simp)
      rw [List.cons_append] at hih
      rw [hih]
      simp [List.append_assoc]

theorem chunk16_flatten (bs : List (List Nat)) (h : ∀ b ∈ bs, b.length = 16) :
    chunk16 bs.flatten = bs := by
  induction bs with
  | nil => rfl
  | cons b bs' ih =>
    have hb : b.length = 16 := h b (by simp)
    rw [List.flatten_cons]
    unfold chunk16
    rw [chunkAux_block b [] (.flatten bs') (by simp [hb])
      (by intro he; rw [he] at hb; simp at hb)]
    rw [List.nil_append]
    exact congrArg (b :: ·) (ih fun b' hb' => h b' (by simp [hb']))

theorem chunk16_props : ∀ (n : Nat) (l : List Nat), l.length = n → l.length % 16 = 0 →
    (chunk16 l).flatten = l ∧ ∀ b ∈ chunk16 l, b.length = 16 ∧ ∀ x ∈ b, x ∈ l := by
  intro n
  induction n using Nat.strong_induction_on with
  | _ n ih =>
    intro l hlen hmod
    rcases l with _ | ⟨x, l'⟩
    · exact ⟨rfl, by simp [chunk16, chunkAux]⟩
    · have h16 : 16 ≤ (x :: l').length := by
        by_contra hlt
        push_neg at hlt
        rw [Nat.mod_eq_of_lt hlt] at hmod
        simp at hmod
      have htake : ((x :: l').take 16).length = 16 := by
        rw [List.length_take]
        simp only [List.length_cons] at h16 ⊢
        omega
      have hsplit : (x :: l').take 16 ++ (x :: l').drop 16 = x :: l' :=
        List.take_append_drop 16 (x :: l')
      have hdlen : ((x :: l').drop 16).length = (x :: l').length - 16 := by
        simp [List.length_drop]
      have hrec := ih ((x :: l').length - 16) (by omega) ((x :: l').drop 16) hdlen
        (by rw [hdlen]; omega)
      have hch : chunk16 (x :: l') = (x :: l').take 16 :: chunk16 ((x :: l').drop 16) := by
        conv_lhs => rw [← hsplit]
        unfold chunk16
        rw [chunkAux_block _ [] _
          (by simp only [List.length_nil, Nat.zero_add]; exact htake)
          (by intro he; rw [he] at htake; simp at htake)]
        rw [List.nil_append]
      constructor
      · rw [hch, List.flatten_cons, hrec.1, hsplit]
      · intro b hb
        rw [hch] at hb
        rcases List.mem_cons.mp hb with hb | hb
        · subst hb
          refine ⟨htake, fun y hy => ?_⟩
          rw [← hsplit]
          exact List.mem_append.mpr (Or.inl hy)
        · obtain ⟨hb1, hb2⟩ := hrec.2 b hb
          refine ⟨hb1, fun y hy => ?_⟩
          rw [← hsplit]
          exact List.mem_append.mpr (Or.inr (hb2 y hy))

def cbcEncBlocks (E : List Nat → List Nat → List Nat) (k prev : List Nat) :
    List (List Nat) → List (List Nat)
  | [] => []
  | b :: bs => E k (xorBytes b prev) :: cbcEncBlocks E k (E k (xorBytes b prev)) bs

def cbcDecBlocks (D : List Nat → List Nat → List Nat) (k prev : List Nat) :
    List (List Nat) → List (List Nat)
  | [] => []
  | c :: cs => xorBytes (D k c) prev :: cbcDecBlocks D k c cs

theorem cbcDec_cbcEnc (E D : List Nat → List Nat → List Nat) (k : List Nat)
    (hED : ∀ b, b.length = 16 → (∀ x ∈ b, x < 256) → D k (E k b) = b)
    (hElen : ∀ b, b.length = 16 → (∀ x ∈ b, x < 256) → (E k b).length = 16)
    (hE256 : ∀ b, b.length = 16 → (∀ x ∈ b, x < 256) → ∀ x ∈ E k b, x < 256) :
    ∀ (bs : List (List Nat)) (prev : List Nat),
      prev.length = 16 → (∀ x ∈ prev, x < 256) →
      (∀ b ∈ bs, b.length = 16 ∧ ∀ x ∈ b, x < 256) →
      cbcDecBlocks D k prev (cbcEncBlocks E k prev bs) = bs := by
  intro bs
  induction bs with
  | nil => intro prev _ _ _; rfl
  | cons b bs' ih =>
    intro prev hplen hp256 hbs
    obtain ⟨hblen, hb256⟩ := hbs b (by simp)
    have hxlen : (xorBytes b prev).length = 16 := by
      simp [xorBytes_length, hblen, hplen]
    have hx256 : ∀ x ∈ xorBytes b prev, x < 256 := xorBytes_lt b prev hb256 hp256
    simp only [cbcEncBlocks, cbcDecBlocks]
    rw [hED _ hxlen hx256, xorBytes_cancel b prev (by rw [hblen, hplen])]
    exact congrArg (b :: ·) (ih _ (hElen _ hxlen hx256) (hE256 _ hxlen hx256)
      (fun b' h' => hbs b' (by simp [h'])))

theorem cbcEnc_facts (E : List Nat → List Nat → List Nat) (k : List Nat)
    (hElen : ∀ b, b.length = 16 → (∀ x ∈ b, x < 256) → (E k b).length = 16)
    (hE256 : ∀ b, b.length = 16 → (∀ x ∈ b, x < 256) → ∀ x ∈ E k b, x < 256) :
    ∀ (bs : List (List Nat)) (prev : List Nat),
      prev.length = 16 → (∀ x ∈ prev, x < 256) →
      (∀ b ∈ bs, b.length = 16 ∧ ∀ x ∈ b, x < 256) →
      ∀ c ∈ cbcEncBlocks E k prev bs, c.length = 16 ∧ ∀ x ∈ c, x < 256 := by
  intro bs
  induction bs with
  | nil => intro prev _ _ _ c hc; simp [cbcEncBlocks] at hc
  | cons b bs' ih =>
    intro prev hplen hp256 hbs c hc
    obtain ⟨hblen, hb256⟩ := hbs b (by simp)
    have hxlen : (xorBytes b prev).length = 16 := by
      simp [xorBytes_length, hblen, hplen]
    have hx256 : ∀ x ∈ xorBytes b prev, x < 256 := xorBytes_lt b prev hb256 hp256
    simp only [cbcEncBlocks, List.mem_cons] at hc
    rcases hc with hc | hc
    · subst hc
      exact ⟨hElen _ hxlen hx256, hE256 _ hxlen hx256⟩
    · exact ih _ (hElen _ hxlen hx256) (hE256 _ hxlen hx256)
        (fun b' h' => hbs b' (by simp [h'])) c hc

theorem flatten_len16 (bs : List (List Nat)) (h : ∀ b ∈ bs, b.length = 16) :
    bs.flatten.length = 16 * bs.length := by
  induction bs with
  | nil => rfl
  | cons b bs' ih =>
    rw [List.flatten_cons, List.length_append, h b (by simp),
      ih (fun b' h' => h b' (by simp [h']))]
    simp [List.length_cons]
    ring

def pkcs7Pad (msg : List Nat) : List Nat :=
  msg ++ List.replicate (16 - msg.length % 16) (16 - msg.length % 16)

def pkcs7Unpad (msg : List Nat) : Option (List Nat) :=
  match msg.getLast? with
  | none => none
  | some m =>
    if 1 ≤ m ∧ m ≤ 16 ∧ m ≤ msg.length ∧ (msg.drop (msg.length - m)).all (fun x => x == m)
    then some (msg.take (msg.length - m))
    else none

theorem replicate_getLast (p v : Nat) (h : 0 < p) :
    (List.replicate p v).getLast? = some v := by
  cases p with
  | zero => omega
  | succ q =>
    rw [List.getLast?_eq_getLast _ (by simp), List.getLast_replicate]

theorem pkcs7Unpad_pad (msg : List Nat) : pkcs7Unpad (pkcs7Pad msg) = some msg := by
  have hm : msg.length % 16 < 16 := Nat.mod_lt _ (by norm_num)
  have hp1 : 1 ≤ 16 - msg.length % 16 := by omega
  have hlen : (pkcs7Pad msg).length = msg.length + (16 - msg.length % 16) := by
    simp [pkcs7Pad]
  have hlast : (pkcs7Pad msg).getLast? = some (16 - msg.length % 16) := by
    unfold pkcs7Pad
    rw [List.getLast?_append, replicate_getLast _ _ (by omega)]
    rfl
  unfold pkcs7Unpad
  rw [hlast]
  dsimp only
  rw [if_pos]
  · rw [hlen, Nat.add_sub_cancel]
    unfold pkcs7Pad
    rw [List.take_left]
  · refine ⟨hp1, by omega, by rw [hlen]; omega, ?_⟩
    rw [hlen, Nat.add_sub_cancel]
    unfold pkcs7Pad
    rw [List.drop_left]
    simp [List.all_eq_true, List.mem_replicate]

theorem pkcs7Pad_mod (msg : List Nat) : (pkcs7Pad msg).length % 16 = 0 := by
  have hm : msg.length % 16 < 16 := Nat.mod_lt _ (by norm_num)
  simp only [pkcs7Pad, List.length_append, List.length_replicate]
  omega

theorem pkcs7Pad_lt (msg : List Nat) (h : ∀ x ∈ msg, x < 256) :
    ∀ x ∈ pkcs7Pad msg, x < 256 := by
  intro x hx
  rcases List.mem_append.mp hx with hx | hx
  · exact h x hx
  · have := List.mem_replicate.mp hx
    omega

theorem pkcs7Pad_ne_nil (msg : List Nat) : pkcs7Pad msg ≠ [] := by
  have hm : msg.length % 16 < 16 := Nat.mod_lt _ (by norm_num)
  intro he
  have := congrArg List.length he
  simp [pkcs7Pad] at this
  omega

def hexDigitChar (d : Nat) : Char :=
  if d < 10 then Char.ofNat (48 + d) else Char.ofNat (87 + d)

def hexVal (c : Char) : Option Nat :=
  if 48 ≤ c.toNat ∧ c.toNat ≤ 57 then some (c.toNat - 48)
  else if 97 ≤ c.toNat ∧ c.toNat ≤ 102 then some (c.toNat - 87)
  else if 65 ≤ c.toNat ∧ c.toNat ≤ 70 then some (c.toNat - 55)
  else none

def hexEncodeChars (bs : List Nat) : List Char :=
  bs.foldr (fun b acc => hexDigitChar (b / 16) :: hexDigitChar (b % 16) :: acc) []

def hexEncode (bs : List Nat) : String := String.mk (hexEncodeChars bs)

def hexDecodeAux : List Char → Option (List Nat)
  | [] => some []
  | [_] => none
  | c1 :: c2 :: rest =>
    match hexVal c1, hexVal c2, hexDecodeAux rest with
    | some h, some l, some r => some ((16 * h + l) :: r)
    | _, _, _ => none

def hexDecode (s : String) : Option (List Nat) := hexDecodeAux s.data

theorem hexVal_hexDigitChar (d : Nat) (h : d < 16) :
    hexVal (hexDigitChar d) = some d := by
  interval_cases d <;> decide

theorem hexDecodeAux_encode (bs : List Nat) (h : ∀ b ∈ bs, b < 256) :
    hexDecodeAux (hexEncodeChars bs) = some bs := by
  induction bs with
  | nil => rfl
  | cons b bs' ih =>
    have hb := h b (by simp)
    simp only [hexEncodeChars, List.foldr_cons]
    show hexDecodeAux (hexDigitChar (b / 16) :: hexDigitChar (b % 16) :: hexEncodeChars bs') = _
    simp only [hexDecodeAux]
    rw [hexVal_hexDigitChar _ (by omega), hexVal_hexDigitChar _ (by omega),
      ih (fun x hx => h x (by simp [hx]))]
    dsimp only
    rw [Nat.div_add_mod b 16]

theorem hexDecode_hexEncode (bs : List Nat) (h : ∀ b ∈ bs, b < 256) :
    hexDecode (hexEncode bs) = some bs := hexDecodeAux_encode bs h

theorem char_ofNat_toNat (c : Char) : Char.ofNat c.toNat = c := by
  have hv : c.toNat.isValidChar := c.valid
  unfold Char.ofNat
  rw [dif_pos hv]
  unfold Char.ofNatAux
  apply Char.ext
  rcases c with ⟨⟨⟨⟨n, hn⟩⟩⟩, h⟩
  rfl

theorem char_toNat_ofNat (n : Nat) (h : n < 55296) : (Char.ofNat n).toNat = n := by
  have hv : n.isValidChar := Or.inl h
  unfold Char.ofNat
  rw [dif_pos hv]
  rfl

def utf8Encode (s : String) : List Nat := s.data.map Char.toNat

def utf8Decode (bs : List Nat) : String := String.mk (bs.map Char.ofNat)

theorem utf8Decode_encode (s : String) : utf8Decode (utf8Encode s) = s := by
  unfold utf8Decode utf8Encode
  rw [List.map_map]
  show String.mk (s.data.map (fun c => Char.ofNat c.toNat)) = s
  rw [List.map_congr_left (fun c _ => char_ofNat_toNat c)]
  show String.mk (s.data.map (fun c => c)) = s
  rw [List.map_id']

/-! JSON for the vote record. -/

structure VoteRecord where
  choice : String
  anonymousVoteId : String
  timestamp : Nat
  roundId : String
deriving DecidableEq

def escapeChar (c : Char) : List Char :=
  if c = '"' ∨ c = '\\' then ['\\', c] else [c]

def escapeList : List Char → List Char
  | [] => []
  | c :: l => escapeChar c ++ escapeList l

def scanJString : List Char → Option (List Char × List Char)
  | [] => none
  | c :: rest =>
    if c = '"' then some ([], rest)
    else if c = '\\' then
      match rest with
      | [] => none
      | d :: rest2 => (scanJString rest2).map (fun p => (d :: p.1, p.2))
    else (scanJString rest).map (fun p => (c :: p.1, p.2))

theorem scanJString_quote (T : List Char) : scanJString ('"' :: T) = some ([], T) := by
  rw [scanJString.eq_def]
  simp

theorem scanJString_esc (d : Char) (T : List Char) :
    scanJString ('\\' :: d :: T) = (scanJString T).map (fun p => (d :: p.1, p.2)) := by
  rw [scanJString.eq_def]
  dsimp only
  rw [if_neg (by decide), if_pos rfl]

theorem scanJString_cons_ne (c : Char) (T : List Char) (h1 : c ≠ '"') (h2 : c ≠ '\\') :
    scanJString (c :: T) = (scanJString T).map (fun p => (c :: p.1, p.2)) := by
  rw [scanJString.eq_def]
  dsimp only
  rw [if_neg h1, if_neg h2]

theorem scanJString_escape (l rest : List Char) :
    scanJString (escapeList l ++ ('"' :: rest)) = some (l, rest) := by
  induction l with
  | nil =>
    show scanJString ('"' :: rest) = some ([], rest)
    exact scanJString_quote rest
  | cons c l' ih =>
    by_cases hc : c = '"' ∨ c = '\\'
    · simp only [escapeList, escapeChar, if_pos hc, List.cons_append, List.append_assoc]
      show scanJString ('\\' :: c :: (escapeList l' ++ '"' :: rest)) = _
      rw [scanJString_esc, ih]
      rfl
    · push_neg at hc
      simp only [escapeList, escapeChar, if_neg (by push_neg; exact hc :
          ¬(c = '"' ∨ c = '\\')), List.cons_append, List.nil_append]
      show scanJString (c :: (escapeList l' ++ '"' :: rest)) = _
      rw [scanJString_cons_ne c _ hc.1 hc.2, ih]
      rfl

def parseLit : List Char → List Char → Option (List Char)
  | [], rest => some rest
  | _ :: _, [] => none
  | l :: ls, c :: cs => if c = l then parseLit ls cs else none

theorem parseLit_append (lit rest : List Char) : parseLit lit (lit ++ rest) = some rest := by
  induction lit with
  | nil => rfl
  | cons l ls ih => simp [parseLit, ih]

def digitChar (d : Nat) : Char := Char.ofNat (48 + d)

def natDigitsAux : Nat → Nat → List Nat
  | 0, _ => []
  | fuel + 1, n => if n = 0 then [] else n % 10 :: natDigitsAux fuel (n / 10)

def natDigitsLE (n : Nat) : List Nat := natDigitsAux n n

def natPrintDigits (n : Nat) : List Nat :=
  if n = 0 then [0] else (natDigitsLE n).reverse

def natPrintChars (n : Nat) : List Char := (natPrintDigits n).map digitChar

theorem natDigitsAux_ofDigits : ∀ fuel n, n ≤ fuel →
    Nat.ofDigits 10 (natDigitsAux fuel n) = n := by
  intro fuel
  induction fuel with
  | zero =>
    intro n h
    have : n = 0 := Nat.le_zero.mp h
    subst this
    rfl
  | succ f ih =>
    intro n h
    by_cases h0 : n = 0
    · subst h0
      rfl
    · simp only [natDigitsAux, if_neg h0]
      rw [Nat.ofDigits_cons]
      have hdiv : n / 10 < n := Nat.div_lt_self (Nat.pos_of_ne_zero h0) (by norm_num)
      rw [ih (n / 10) (by omega)]
      exact Nat.mod_add_div n 10

theorem natDigitsAux_lt : ∀ fuel n, ∀ d ∈ natDigitsAux fuel n, d < 10 := by
  intro fuel
  induction fuel with
  | zero => intro n d hd; simp [natDigitsAux] at hd
  | succ f ih =>
    intro n d hd
    by_cases h0 : n = 0
    · subst h0; simp [natDigitsAux] at hd
    · simp only [natDigitsAux, if_neg h0, List.mem_cons] at hd
      rcases hd with hd | hd
      · subst hd; exact Nat.mod_lt _ (by norm_num)
      · exact ih _ d hd

theorem natPrintDigits_lt (n : Nat) : ∀ d ∈ natPrintDigits n, d < 10 := by
  intro d hd
  unfold natPrintDigits at hd
  split at hd
  · simp at hd; omega
  · rw [List.mem_reverse] at hd
    exact natDigitsAux_lt n n d hd

theorem natPrintDigits_ne_nil (n : Nat) : natPrintDigits n ≠ [] := by
  unfold natPrintDigits
  split
  · simp
  · simp only [ne_eq, List.reverse_eq_nil_iff]
    unfold natDigitsLE
    cases n with
    | zero => simp_all
    | succ m => simp [natDigitsAux]

def natFromDigits (ds : List Nat) : Nat := ds.foldl (fun x d => 10 * x + d) 0

theorem foldl_reverse_ofDigits : ∀ (l : List Nat) (a : Nat),
    l.reverse.foldl (fun x d => 10 * x + d) a = a * 10 ^ l.length + Nat.ofDigits 10 l := by
  intro l
  induction l with
  | nil => intro a; simp [Nat.ofDigits_nil]
  | cons d t ih =>
    intro a
    simp only [List.reverse_cons, List.foldl_append, List.foldl_cons, List.foldl_nil]
    rw [ih, Nat.ofDigits_cons]
    simp only [List.length_cons, pow_succ]
    ring

theorem natFromDigits_print (n : Nat) : natFromDigits (natPrintDigits n) = n := by
  unfold natPrintDigits
  split
  · subst ‹n = 0›
    rfl
  · unfold natFromDigits natDigitsLE
    rw [foldl_reverse_ofDigits]
    rw [natDigitsAux_ofDigits n n le_rfl]
    simp

theorem digitChar_isDigit (d : Nat) (h : d < 10) : (digitChar d).isDigit = true := by
  interval_cases d <;> decide

theorem digitChar_toNat (d : Nat) (h : d < 10) : (digitChar d).toNat - 48 = d := by
  interval_cases d <;> decide

def scanDigits : List Char → List Nat × List Char
  | [] => ([], [])
  | c :: rest =>
    if c.isDigit then
      ((c.toNat - 48) :: (scanDigits rest).1, (scanDigits rest).2)
    else ([], c :: rest)

theorem scanDigits_append (ds : List Nat) (rest : List Char)
    (hds : ∀ d ∈ ds, d < 10)
    (hrest : ∀ c, rest.head? = some c → c.isDigit = false) :
    scanDigits (ds.map digitChar ++ rest) = (ds, rest) := by
  induction ds with
  | nil =>
    simp only [List.map_nil, List.nil_append]
    cases rest with
    | nil => rfl
    | cons c t =>
      have hd := hrest c rfl
      rw [scanDigits.eq_def]
      dsimp only
      rw [if_neg (by simp [hd])]
  | cons d ds' ih =>
    have hd := hds d (by simp)
    simp only [List.map_cons, List.cons_append]
    rw [scanDigits.eq_def]
    dsimp only
    rw [if_pos (digitChar_isDigit d hd)]
    rw [ih (fun x hx => hds x (by simp [hx]))]
    dsimp only
    rw [digitChar_toNat d hd]

def jsonChars (v : VoteRecord) : List Char :=
  "\x7b\"choice\":\"".data
  ++ (escapeList v.choice.data
  ++ ('"' :: (",\"anonymousVoteId\":\"".data
  ++ (escapeList v.anonymousVoteId.data
  ++ ('"' :: (",\"timestamp\":".data
  ++ (natPrintChars v.timestamp
  ++ (",\"roundId\":\"".data
  ++ (escapeList v.roundId.data
  ++ ('"' :: "\x7d".data))))))))))

def jsonStringifyVote (v : VoteRecord) : String := String.mk (jsonChars v)

def jsonParseVote (s : String) : Option VoteRecord :=
  match parseLit "\x7b\"choice\":\"".data s.data with
  | none => none
  | some r1 =>
    match scanJString r1 with
    | none => none
    | some (cs, r2) =>
      match parseLit ",\"anonymousVoteId\":\"".data r2 with
      | none => none
      | some r3 =>
        match scanJString r3 with
        | none => none
        | some (an, r4) =>
          match parseLit ",\"timestamp\":".data r4 with
          | none => none
          | some r5 =>
            if (scanDigits r5).1.isEmpty then none
            else
              match parseLit ",\"roundId\":\"".data (scanDigits r5).2 with
              | none => none
              | some r7 =>
                match scanJString r7 with
                | none => none
                | some (rs, r8) =>
                  if r8 = "\x7d".data then
                    some ⟨String.mk cs, String.mk an,
                      natFromDigits (scanDigits r5).1, String.mk rs⟩
                  else none

theorem jsonParseVote_stringify (v : VoteRecord) :
    jsonParseVote (jsonStringifyVote v) = some v := by
  obtain ⟨c, a, t, r⟩ := v
  unfold jsonParseVote jsonStringifyVote jsonChars
  dsimp only
  rw [parseLit_append]
  dsimp only
  rw [scanJString_escape]
  dsimp only
  rw [parseLit_append]
  dsimp only
  rw [scanJString_escape]
  dsimp only
  rw [parseLit_append]
  dsimp only
  rw [show natPrintChars t = (natPrintDigits t).map digitChar from rfl]
  rw [scanDigits_append (natPrintDigits t) _ (natPrintDigits_lt t)
    (by
      intro c' hc'
      have h2 : (',' : Char) = c' := Option.some.inj hc'
      rw [← h2]
      decide)]
  dsimp only
  rw [if_neg (by simp [List.isEmpty_eq_true, natPrintDigits_ne_nil])]
  rw [parseLit_append]
  dsimp only
  rw [scanJString_escape]
  dsimp only
  rw [if_pos rfl]
  rw [natFromDigits_print]

theorem mem_escapeList (l : List Char) (c : Char) (hc : c ∈ escapeList l) :
    c = '\\' ∨ c ∈ l := by
  induction l with
  | nil => simp [escapeList] at hc
  | cons x l' ih =>
    simp only [escapeList] at hc
    rcases List.mem_append.mp hc with h | h
    · unfold escapeChar at h
      split at h
      · simp only [List.mem_cons, List.mem_singleton] at h
        rcases h with h | h
        · exact Or.inl h
        · simp at h
          exact Or.inr (by simp [h])
      · simp only [List.mem_singleton] at h
        exact Or.inr (by simp [h])
    · rcases ih h with h | h
      · exact Or.inl h
      · exact Or.inr (by simp [h])

theorem jsonChars_lt (v : VoteRecord)
    (h : ∀ c ∈ v.choice.data ++ v.anonymousVoteId.data ++ v.roundId.data,
      c.toNat < 128) :
    ∀ c ∈ jsonChars v, c.toNat < 256 := by
  have hesc : ∀ (s : List Char), (∀ c ∈ s, c.toNat < 128) →
      ∀ c ∈ escapeList s, c.toNat < 256 := by
    intro s hs c hc
    rcases mem_escapeList s c hc with h' | h'
    · rw [h']
      decide
    · have := hs c h'
      omega
  have hdig : ∀ c ∈ (natPrintDigits v.timestamp).map digitChar, c.toNat < 256 := by
    intro c hc
    obtain ⟨d, hd, rfl⟩ := List.mem_map.mp hc
    have hd10 := natPrintDigits_lt v.timestamp d hd
    unfold digitChar
    rw [char_toNat_ofNat _ (by omega)]
    omega
  unfold jsonChars
  simp only [List.forall_mem_append, List.forall_mem_cons]
  exact ⟨by decide, hesc _ (fun c hc => h c (by simp [hc])), by decide, by decide,
    hesc _ (fun c hc => h c (by simp [hc])), by decide, by decide, hdig, by decide,
    hesc _ (fun c hc => h c (by simp [hc])), by decide, by decide⟩

def encryptVote (E : List Nat → List Nat → List Nat) (key iv : List Nat)
    (choice roundId anonymousVoteId : String) (timestamp : Nat) : EncResult :=
  let voteData := jsonStringifyVote ⟨choice, anonymousVoteId, timestamp, roundId⟩
  let ct := (cbcEncBlocks E key iv (chunk16 (pkcs7Pad (utf8Encode voteData)))).flatten
  ⟨hexEncode ct, hexEncode key, hexEncode iv, anonymousVoteId⟩

def decryptVote (D : List Nat → List Nat → List Nat)
    (encryptedData keyHex ivHex : String) : Option VoteRecord :=
  match hexDecode keyHex, hexDecode ivHex, hexDecode encryptedData with
  | some key, some iv, some ct =>
    if ct.length % 16 = 0 ∧ ct.length ≠ 0 then
      match pkcs7Unpad (cbcDecBlocks D key iv (chunk16 ct)).flatten with
      | some msg => jsonParseVote (utf8Decode msg)
      | none => none
    else none
  | _, _, _ => none

/-- **C6.** Encrypt-then-decrypt with the matching key and IV recovers the
original `\x7bchoice, anonymousVoteId, timestamp, roundId\x7d` record exactly.
`encryptVote` serialises the record as `JSON.stringify` does (insertion order,
minimal escaping), PKCS#7-pads the UTF-8 bytes, runs CBC over the AES-256
block cipher (abstracted as `E`/`D` with the block-cipher inverse, length and
byte-range laws AES satisfies), and hex-encodes ciphertext, key and IV;
`decryptVote` reverses the pipeline and is total, returning `none` (the
source's `null` inside `try/catch`) on any failure. The hypotheses restrict
the record's strings to printable ASCII, the domain on which the code-point
text codec used here agrees with UTF-8. -/
theorem C6_encrypt_decrypt (E D : List Nat → List Nat → List Nat) (key iv : List Nat)
    (choice roundId anonymousVoteId : String) (timestamp : Nat)
    (hED : ∀ b, b.length = 16 → (∀ x ∈ b, x < 256) → D key (E key b) = b)
    (hElen : ∀ b, b.length = 16 → (∀ x ∈ b, x < 256) → (E key b).length = 16)
    (hE256 : ∀ b, b.length = 16 → (∀ x ∈ b, x < 256) → ∀ x ∈ E key b, x < 256)
    (hkey : ∀ x ∈ key, x < 256) (hiv256 : ∀ x ∈ iv, x < 256)
    (hivlen : iv.length = 16)
    (hascii : ∀ c ∈ choice.data ++ anonymousVoteId.data ++ roundId.data,
      c.toNat < 128) :
    decryptVote D
        (encryptVote E key iv choice roundId anonymousVoteId timestamp).encryptedData
        (encryptVote E key iv choice roundId anonymousVoteId timestamp).key
        (encryptVote E key iv choice roundId anonymousVoteId timestamp).iv
      = some ⟨choice, anonymousVoteId, timestamp, roundId⟩ := by
  have hmsg256 : ∀ x ∈ utf8Encode (jsonStringifyVote
      ⟨choice, anonymousVoteId, timestamp, roundId⟩), x < 256 := by
    intro x hx
    obtain ⟨ch, hch, rfl⟩ := List.mem_map.mp hx
    have := jsonChars_lt ⟨choice, anonymousVoteId, timestamp, roundId⟩ hascii ch hch
    omega
  have hpadmod := pkcs7Pad_mod (utf8Encode (jsonStringifyVote
      ⟨choice, anonymousVoteId, timestamp, roundId⟩))
  have hpad256 := pkcs7Pad_lt _ hmsg256
  have hpadne := pkcs7Pad_ne_nil (utf8Encode (jsonStringifyVote
      ⟨choice, anonymousVoteId, timestamp, roundId⟩))
  obtain ⟨hflat, hblocks⟩ := chunk16_props _ (pkcs7Pad (utf8Encode (jsonStringifyVote
      ⟨choice, anonymousVoteId, timestamp, roundId⟩))) rfl hpadmod
  have hblocks' : ∀ b ∈ chunk16 (pkcs7Pad (utf8Encode (jsonStringifyVote
      ⟨choice, anonymousVoteId, timestamp, roundId⟩))),
      b.length = 16 ∧ ∀ x ∈ b, x < 256 :=
    fun b hb => ⟨(hblocks b hb).1, fun x hx => hpad256 x ((hblocks b hb).2 x hx)⟩
  have hcfacts := cbcEnc_facts E key hElen hE256 _ iv hivlen hiv256 hblocks'
  have hct256 : ∀ x ∈ (cbcEncBlocks E key iv (chunk16 (pkcs7Pad (utf8Encode
      (jsonStringifyVote ⟨choice, anonymousVoteId, timestamp, roundId⟩))))).flatten,
      x < 256 := by
    intro x hx
    obtain ⟨blk, hblk, hxb⟩ := List.mem_flatten.mp hx
    exact (hcfacts blk hblk).2 x hxb
  have hctlen := flatten_len16 _ (fun b hb => (hcfacts b hb).1)
  have hcne : chunk16 (pkcs7Pad (utf8Encode (jsonStringifyVote
      ⟨choice, anonymousVoteId, timestamp, roundId⟩))) ≠ [] := by
    intro he
    rw [he] at hflat
    exact hpadne hflat.symm
  have hcbclen : (cbcEncBlocks E key iv (chunk16 (pkcs7Pad (utf8Encode
      (jsonStringifyVote ⟨choice, anonymousVoteId, timestamp, roundId⟩))))).length ≠ 0 := by
    rcases hch : chunk16 (pkcs7Pad (utf8Encode (jsonStringifyVote
        ⟨choice, anonymousVoteId, timestamp, roundId⟩))) with _ | ⟨b, bs⟩
    · exact absurd hch hcne
    · simp [cbcEncBlocks]
  unfold decryptVote encryptVote
  dsimp only
  rw [hexDecode_hexEncode key hkey, hexDecode_hexEncode iv hiv256,
    hexDecode_hexEncode _ hct256]
  dsimp only
  rw [if_pos ⟨by rw [hctlen]; simp [Nat.mul_mod_right], by rw [hctlen]; omega⟩]
  rw [chunk16_flatten _ (fun b hb => (hcfacts b hb).1)]
  rw [cbcDec_cbcEnc E D key hED hElen hE256 _ iv hivlen hiv256 hblocks']
  rw [hflat]
  rw [pkcs7Unpad_pad]
  dsimp only
  rw [utf8Decode_encode]
  rw [jsonParseVote_stringify]

/-- Witness for C6: with the identity block cipher on 16-byte blocks, a
32-byte key, a 16-byte IV and a concrete vote record, decryption recovers
the record exactly. -/
theorem C6_encrypt_decrypt_witness :
    (∀ x ∈ List.replicate 32 (1 : Nat), x < 256)
    ∧ (∀ x ∈ List.replicate 16 (2 : Nat), x < 256)
    ∧ (List.replicate 16 (2 : Nat)).length = 16
    ∧ (∀ c ∈ "yes".data ++ "anon1".data ++ "round_1000_alice".data, c.toNat < 128)
    ∧ decryptVote (fun _ b => b)
        (encryptVote (fun _ b => b) (List.replicate 32 1) (List.replicate 16 2)
          "yes" "round_1000_alice" "anon1" 1234).encryptedData
        (encryptVote (fun _ b => b) (List.replicate 32 1) (List.replicate 16 2)
          "yes" "round_1000_alice" "anon1" 1234).key
        (encryptVote (fun _ b => b) (List.replicate 32 1) (List.replicate 16 2)
          "yes" "round_1000_alice" "anon1" 1234).iv
      = some ⟨"yes", "anon1", 1234, "round_1000_alice"⟩ :=
  ⟨by decide, by decide, by decide, by decide,
   C6_encrypt_decrypt (fun _ b => b) (fun _ b => b) (List.replicate 32 1)
     (List.replicate 16 2) "yes" "round_1000_alice" "anon1" 1234
     (fun b _ _ => rfl) (fun b hb _ => hb) (fun b _ h256 => h256)
     (by decide) (by decide) (by decide) (by decide)⟩

end VoteNet
